import Mathlib

/-
  Verification of the mempool transaction cache (txcache package).

  The development shallowly embeds the cache's data model and operations:
  the flat hash-to-transaction map, the sender-to-list map, the facade
  operations AddTx / RemoveTxByHash (txCache.go), the eviction engine
  (eviction.go) and the selection session wrapper
  (selectionSessionWrapper.go).  Byte strings (hashes, addresses) are
  embedded as natural numbers, ordered as the lexicographic order on the
  underlying bytes; big.Int values are embedded as Int; uint32/uint64
  counters as Nat.

  The per-sender list, the by-hash map internals, the by-sender map and the
  heap comparator live in repository files that are not among the given
  sources; those definitions are modelled from the specification and say so
  in their doc comments.
-/

set_option autoImplicit false

namespace TxCacheModel

/-- Opaque transaction handler fields used by the cache (GetNonce,
GetSndAddr, GetGasPrice). -/
structure TxData where
  nonce : Nat
  sndAddr : Nat
  gasPrice : Nat
deriving DecidableEq, Repr

/-- WrappedTransaction: a reference to an opaque transaction (possibly nil)
plus precomputed fields, as in the data model of the cache. -/
structure WrappedTransaction where
  Tx : Option TxData
  TxHash : Nat
  Size : Nat
  PricePerGasUnit : Nat
  Fee : Option Int
  TransferredValue : Option Int
  FeePayer : Nat
deriving DecidableEq, Repr

/-- Nonce of the underlying transaction (the cache only reads it on non-nil
handlers). -/
def getNonce (tx : WrappedTransaction) : Nat :=
  match tx.Tx with
  | some d => d.nonce
  | none => 0

/-- Sender address of the underlying transaction. -/
def getSender (tx : WrappedTransaction) : Nat :=
  match tx.Tx with
  | some d => d.sndAddr
  | none => 0

/-- Gas price of the underlying transaction. -/
def getGasPrice (tx : WrappedTransaction) : Nat :=
  match tx.Tx with
  | some d => d.gasPrice
  | none => 0

/-- Configuration fields relevant to the modelled operations
(ConfigSourceMe). -/
structure ConfigSourceMe where
  NumBytesThreshold : Nat
  CountThreshold : Nat
  NumBytesPerSenderThreshold : Nat
  CountPerSenderThreshold : Nat
  EvictionEnabled : Bool
  NumItemsToPreemptivelyEvict : Nat
deriving DecidableEq, Repr

/-- The sender map: association list from sender address to the per-sender
list of transactions. -/
abbrev SenderMap := List (Nat × List WrappedTransaction)

/-- Cache state: the flat by-hash map (txByHashMap) and the by-sender map
(txListBySenderMap). -/
structure CacheState where
  byHash : List WrappedTransaction
  bySender : SenderMap
deriving DecidableEq, Repr

/-- CountTx: number of transactions held by the by-hash map. -/
def countTx (st : CacheState) : Nat := st.byHash.length

/-- NumBytes: approximate number of bytes held by the by-hash map. -/
def numBytes (st : CacheState) : Nat := (st.byHash.map (fun t => t.Size)).sum

/-- CountSenders: number of senders held by the by-sender map. -/
def countSenders (st : CacheState) : Nat := st.bySender.length

/-- Hashes present in the by-hash map. -/
def hashesOf (m : List WrappedTransaction) : List Nat := m.map (fun t => t.TxHash)

/-- txByHashMap.addTx: insert-if-absent keyed by the transaction hash;
returns whether the map changed. -/
def hashMapAddTx (m : List WrappedTransaction) (tx : WrappedTransaction) :
    Bool × List WrappedTransaction :=
  if m.any (fun t => t.TxHash == tx.TxHash) then (false, m) else (true, m ++ [tx])

/-- txByHashMap.removeTx: remove by hash, returning the removed transaction
when found. -/
def hashMapRemoveTx (m : List WrappedTransaction) (h : Nat) :
    Option WrappedTransaction × List WrappedTransaction :=
  match m.find? (fun t => t.TxHash == h) with
  | none => (none, m)
  | some tx => (some tx, m.filter (fun t => t.TxHash != h))

/-- txByHashMap.RemoveTxsBulk: remove all the given hashes. -/
def hashMapRemoveTxsBulk (m : List WrappedTransaction) (hs : List Nat) :
    List WrappedTransaction :=
  m.filter (fun t => !(hs.contains t.TxHash))

/-- Modelled from the spec: ordering of the per-sender list, ascending by
nonce, ties broken by gas price descending, then by hash ascending (the
txListForSender implementation is not among the given sources). -/
def txComesBefore (a b : WrappedTransaction) : Bool :=
  if getNonce a < getNonce b then true
  else if getNonce b < getNonce a then false
  else if getGasPrice b < getGasPrice a then true
  else if getGasPrice a < getGasPrice b then false
  else decide (a.TxHash < b.TxHash)

/-- Modelled from the spec: ordered insertion into the per-sender list. -/
def insertSorted (tx : WrappedTransaction) : List WrappedTransaction → List WrappedTransaction
  | [] => [tx]
  | t :: ts => if txComesBefore t tx then t :: insertSorted tx ts else tx :: t :: ts

/-- Modelled from the spec: insertion into the per-sender list is a no-op
when the (nonce, hash) pair is already present; returns whether the list
changed. -/
def tryAddToList (tx : WrappedTransaction) (l : List WrappedTransaction) :
    Bool × List WrappedTransaction :=
  if l.any (fun t => getNonce t == getNonce tx && t.TxHash == tx.TxHash) then (false, l)
  else (true, insertSorted tx l)

/-- Byte size of a per-sender list. -/
def listNumBytes (l : List WrappedTransaction) : Nat := (l.map (fun t => t.Size)).sum

/-- Per-sender constraints: numTxs and numBytes within their thresholds. -/
def withinSenderConstraints (cfg : ConfigSourceMe) (l : List WrappedTransaction) : Bool :=
  decide (l.length ≤ cfg.CountPerSenderThreshold) &&
    decide (listNumBytes l ≤ cfg.NumBytesPerSenderThreshold)

/-- Modelled from the spec: the per-sender list evicts its own highest-nonce
transactions (its tail in sorted order) until the per-sender constraints
hold, returning the evicted hashes.  Fuel-driven so the recursion is
structural. -/
def applySizeConstraints (cfg : ConfigSourceMe) :
    Nat → List WrappedTransaction → List WrappedTransaction × List Nat
  | 0, l => (l, [])
  | fuel + 1, l =>
    if withinSenderConstraints cfg l then (l, [])
    else
      match l.getLast? with
      | none => (l, [])
      | some t =>
        let r := applySizeConstraints cfg fuel l.dropLast
        (r.1, t.TxHash :: r.2)

/-- Shrinking a per-sender list until its constraints hold. -/
def applySenderConstraints (cfg : ConfigSourceMe) (l : List WrappedTransaction) :
    List WrappedTransaction × List Nat :=
  applySizeConstraints cfg l.length l

/-- Lookup of a sender's list in the by-sender map. -/
def senderMapLookup (m : SenderMap) (s : Nat) : Option (List WrappedTransaction) :=
  (m.find? (fun p => p.1 == s)).map Prod.snd

/-- Modelled from the spec: write a sender's list back into the by-sender
map; empty lists are removed eagerly. -/
def senderMapSet (m : SenderMap) (s : Nat) (l : List WrappedTransaction) : SenderMap :=
  if (m.find? (fun p => p.1 == s)).isSome then
    if l.isEmpty then m.filter (fun p => p.1 != s)
    else m.map (fun p => if p.1 == s then (s, l) else p)
  else if l.isEmpty then m else m ++ [(s, l)]

/-- Modelled from the spec: txListBySenderMap.addTxReturnEvicted locates or
creates the per-sender list, inserts in nonce order (no-op when the
(nonce, hash) pair is already present), then shrinks the list until the
per-sender constraints hold, returning the evicted hashes. -/
def addTxReturnEvicted (cfg : ConfigSourceMe) (m : SenderMap) (tx : WrappedTransaction) :
    Bool × List Nat × SenderMap :=
  let s := getSender tx
  let l := (senderMapLookup m s).getD []
  let r1 := tryAddToList tx l
  let r2 := applySenderConstraints cfg r1.2
  (r1.1, r2.2, senderMapSet m s r2.1)

/-- Modelled from the spec: from the per-sender list of the transaction's
sender, remove every transaction with nonce lower than or equal to the given
transaction's nonce, returning the removed hashes. -/
def removeTransactionsWithLowerOrEqualNonceReturnHashes
    (m : SenderMap) (tx : WrappedTransaction) : List Nat × SenderMap :=
  let s := getSender tx
  match senderMapLookup m s with
  | none => ([], m)
  | some l =>
    let removed := l.filter (fun t => decide (getNonce t ≤ getNonce tx))
    let kept := l.filter (fun t => !(decide (getNonce t ≤ getNonce tx)))
    (removed.map (fun t => t.TxHash), senderMapSet m s kept)

/-- Modelled from the spec: remove from a sender's list every transaction
with nonce greater than or equal to the given nonce, in one operation. -/
def removeTransactionsWithHigherOrEqualNonce (m : SenderMap) (s : Nat) (nonce : Nat) :
    SenderMap :=
  match senderMapLookup m s with
  | none => m
  | some l => senderMapSet m s (l.filter (fun t => decide (getNonce t < nonce)))

/-- The eviction bunch of a sender: its transactions in reversed (highest
nonce first) order. -/
def getTxsReversed (l : List WrappedTransaction) : List WrappedTransaction := l.reverse

/-- A cursor over a bunch: the current transaction plus the remainder of the
bunch. -/
structure TransactionsHeapItem where
  currentTransaction : WrappedTransaction
  rest : List WrappedTransaction
deriving DecidableEq, Repr

/-- newTransactionsHeapItem fails on an empty bunch. -/
def newTransactionsHeapItem : List WrappedTransaction → Option TransactionsHeapItem
  | [] => none
  | t :: ts => some ⟨t, ts⟩

/-- gotoNextTransaction: advance the cursor to the next transaction of the
same bunch; fails when the bunch is exhausted. -/
def gotoNextTransaction (item : TransactionsHeapItem) : Option TransactionsHeapItem :=
  match item.rest with
  | [] => none
  | t :: ts => some ⟨t, ts⟩

/-- Modelled from the spec: the eviction heap comparator places the worst
transaction on top; a transaction is worse when its price per gas unit is
lower, ties broken on the hash (the comparator implementation is not among
the given sources). -/
def isWorse (a b : WrappedTransaction) : Bool :=
  if a.PricePerGasUnit < b.PricePerGasUnit then true
  else if b.PricePerGasUnit < a.PricePerGasUnit then false
  else decide (a.TxHash < b.TxHash)

/-- Popping the min-heap: extract the worst cursor (by its current
transaction), returning it together with the remaining cursors. -/
def popWorst : List TransactionsHeapItem → Option (TransactionsHeapItem × List TransactionsHeapItem)
  | [] => none
  | i :: is =>
    match popWorst is with
    | none => some (i, [])
    | some (j, rest) =>
      if isWorse i.currentTransaction j.currentTransaction then some (i, j :: rest)
      else some (j, i :: rest)

/-- All transactions reachable from a cursor. -/
def heapItemTxs (item : TransactionsHeapItem) : List WrappedTransaction :=
  item.currentTransaction :: item.rest

/-- All transactions reachable from the heap. -/
def heapTxs : List TransactionsHeapItem → List WrappedTransaction
  | [] => []
  | i :: is => heapItemTxs i ++ heapTxs is

/-- Senders owning a live cursor in the heap. -/
def heapSenders (l : List TransactionsHeapItem) : List Nat :=
  l.map (fun i => getSender i.currentTransaction)

/-- Homogeneous heap: every transaction reachable from a cursor belongs to
the cursor's sender (true of the per-sender bunches). -/
@[reducible] def heapHomog (l : List TransactionsHeapItem) : Prop :=
  ∀ item ∈ l, ∀ t ∈ heapItemTxs item, getSender t = getSender item.currentTransaction

/-- Descending heap: every cursor's bunch is strictly descending in nonce
(true of the reversed per-sender lists). -/
@[reducible] def heapDesc (l : List TransactionsHeapItem) : Prop :=
  ∀ item ∈ l, (heapItemTxs item).Pairwise (fun a b => getNonce b < getNonce a)

/-- Within one list, same-sender transactions appear in strictly descending
nonce order. -/
@[reducible] def sameSenderDesc (l : List WrappedTransaction) : Prop :=
  l.Pairwise (fun a b => getSender a = getSender b → getNonce b < getNonce a)

/-- Lookup in the lowestToEvictBySender map. -/
def lookupLowest (mm : List (Nat × Nat)) (s : Nat) : Option Nat :=
  (mm.find? (fun p => p.1 == s)).map Prod.snd

/-- The transactions a sender holds in the by-sender map (empty when the
sender is absent). -/
def senderTxsOf (m : SenderMap) (s : Nat) : List WrappedTransaction :=
  (senderMapLookup m s).getD []

/-- One pass's collection loop: repeatedly pop the heap; once the batch
already holds NumItemsToPreemptivelyEvict transactions the loop breaks,
discarding the popped cursor; otherwise the popped current transaction is
collected and the advanced cursor is pushed back.  Faithful to the loop of
evictLeastLikelyToSelectTransactions; fuel-driven. -/
def collectPass (cfg : ConfigSourceMe) :
    Nat → List TransactionsHeapItem → List WrappedTransaction →
    List WrappedTransaction × List TransactionsHeapItem
  | 0, heapL, acc => (acc, heapL)
  | fuel + 1, heapL, acc =>
    match popWorst heapL with
    | none => (acc, [])
    | some (item, heapRest) =>
      if cfg.NumItemsToPreemptivelyEvict ≤ acc.length then (acc, heapRest)
      else
        let acc1 := acc ++ [item.currentTransaction]
        match gotoNextTransaction item with
        | some item1 => collectPass cfg fuel (item1 :: heapRest) acc1
        | none => collectPass cfg fuel heapRest acc1

/-- Running one pass's collection with its canonical fuel. -/
def runPass (cfg : ConfigSourceMe) (heapL : List TransactionsHeapItem) :
    List WrappedTransaction × List TransactionsHeapItem :=
  collectPass cfg ((heapTxs heapL).length + 1) heapL []

/-- The lowestToEvictBySender map: iterate the collected transactions,
overwriting each sender's entry with the transaction's nonce
(map semantics of the Go loop). -/
def lowestInsert (m : List (Nat × Nat)) (s n : Nat) : List (Nat × Nat) :=
  if (m.find? (fun p => p.1 == s)).isSome then m.map (fun p => if p.1 == s then (s, n) else p)
  else m ++ [(s, n)]

/-- Building lowestToEvictBySender from the collected transactions. -/
def lowestToEvictBySender (txs : List WrappedTransaction) : List (Nat × Nat) :=
  txs.foldl (fun m tx => lowestInsert m (getSender tx) (getNonce tx)) []

/-- Applying removeTransactionsWithHigherOrEqualNonce for every entry of the
lowestToEvictBySender map. -/
def applyEvictionRemovals (m : SenderMap) (lowest : List (Nat × Nat)) : SenderMap :=
  lowest.foldl (fun acc p => removeTransactionsWithHigherOrEqualNonce acc p.1 p.2) m

/-- areThereTooManyBytes: numBytes strictly above NumBytesThreshold. -/
def areThereTooManyBytes (cfg : ConfigSourceMe) (st : CacheState) : Bool :=
  decide (numBytes st > cfg.NumBytesThreshold)

/-- areThereTooManySenders: numSenders strictly above CountThreshold. -/
def areThereTooManySenders (cfg : ConfigSourceMe) (st : CacheState) : Bool :=
  decide (countSenders st > cfg.CountThreshold)

/-- areThereTooManyTxs: numTxs strictly above CountThreshold. -/
def areThereTooManyTxs (cfg : ConfigSourceMe) (st : CacheState) : Bool :=
  decide (countTx st > cfg.CountThreshold)

/-- isCapacityExceeded: the disjunction of the three counter checks. -/
def isCapacityExceeded (cfg : ConfigSourceMe) (st : CacheState) : Bool :=
  areThereTooManyBytes cfg st || areThereTooManySenders cfg st || areThereTooManyTxs cfg st

/-- The pass loop of evictLeastLikelyToSelectTransactions: while capacity is
exceeded, collect a batch from the (reused) heap, derive the lowest nonce
per sender, remove those per sender and remove the collected hashes from the
by-hash map. -/
def evictionPasses (cfg : ConfigSourceMe) :
    Nat → List TransactionsHeapItem → CacheState → CacheState
  | 0, _, st => st
  | fuel + 1, heapL, st =>
    if isCapacityExceeded cfg st then
      let res := collectPass cfg ((heapTxs heapL).length + 1) heapL []
      if res.1.isEmpty then st
      else
        let lowest := lowestToEvictBySender res.1
        let bySender1 := applyEvictionRemovals st.bySender lowest
        let byHash1 := hashMapRemoveTxsBulk st.byHash (res.1.map (fun t => t.TxHash))
        evictionPasses cfg fuel res.2 ⟨byHash1, bySender1⟩
    else st

/-- evictLeastLikelyToSelectTransactions: snapshot every sender's bunch,
initialize the heap with one cursor per non-empty bunch and run the pass
loop. -/
def evictLeastLikelyToSelectTransactions (cfg : ConfigSourceMe) (st : CacheState) :
    CacheState :=
  let bunches := st.bySender.map (fun p => getTxsReversed p.2)
  let heapL := bunches.filterMap newTransactionsHeapItem
  evictionPasses cfg (countTx st + 1) heapL st

/-- doEviction: nothing happens unless capacity is exceeded (the
single-flight flag concerns concurrency only and is not modelled). -/
def doEviction (cfg : ConfigSourceMe) (st : CacheState) : CacheState :=
  if isCapacityExceeded cfg st then evictLeastLikelyToSelectTransactions cfg st else st

/-- AddTx: nil transactions are rejected; otherwise eviction is triggered
when enabled, then the transaction is inserted into both maps and the
per-sender evicted hashes are removed from the by-hash map; returns
(true, addedInByHash or addedInBySender). -/
def addTx (cfg : ConfigSourceMe) (st : CacheState) (txOpt : Option WrappedTransaction) :
    (Bool × Bool) × CacheState :=
  match txOpt with
  | none => ((false, false), st)
  | some tx =>
    match tx.Tx with
    | none => ((false, false), st)
    | some _ =>
      let st0 := if cfg.EvictionEnabled then doEviction cfg st else st
      let r1 := hashMapAddTx st0.byHash tx
      let r2 := addTxReturnEvicted cfg st0.bySender tx
      let byHash1 := if r2.2.1.isEmpty then r1.2 else hashMapRemoveTxsBulk r1.2 r2.2.1
      ((true, r1.1 || r2.1), ⟨byHash1, r2.2.2⟩)

/-- RemoveTxByHash: remove by hash from the by-hash map; when found, remove
from the sender's list every transaction with nonce lower than or equal to
the removed transaction's nonce and bulk-remove those hashes. -/
def removeTxByHash (st : CacheState) (h : Nat) : Bool × CacheState :=
  match hashMapRemoveTx st.byHash h with
  | (none, _) => (false, st)
  | (some tx, byHash1) =>
    let r := removeTransactionsWithLowerOrEqualNonceReturnHashes st.bySender tx
    let byHash2 := if r.1.isEmpty then byHash1 else hashMapRemoveTxsBulk byHash1 r.1
    (true, ⟨byHash2, r.2⟩)

/-- AccountState as reported by the selection session. -/
structure AccountState where
  Nonce : Nat
  Balance : Int
deriving DecidableEq, Repr

/-- Per-address record cached by the selection session wrapper. -/
structure AccountRecord where
  initialNonce : Nat
  initialBalance : Int
  consumedBalance : Int
deriving DecidableEq, Repr

/-- The selection session collaborator: per address, either an account state
or an error (none). -/
abbrev SelectionSession := Nat → Option AccountState

/-- The wrapper's recordsByAddress map. -/
abbrev RecordsMap := List (Nat × AccountRecord)

/-- Lookup in recordsByAddress. -/
def recordsLookup (m : RecordsMap) (a : Nat) : Option AccountRecord :=
  (m.find? (fun p => p.1 == a)).map Prod.snd

/-- getAccountRecord: return the stored record when present; otherwise
consult the session (errors default the record to all zeroes) and store the
new record.  The third component records whether the session was
consulted. -/
def getAccountRecord (session : SelectionSession) (m : RecordsMap) (address : Nat) :
    AccountRecord × RecordsMap × Bool :=
  match recordsLookup m address with
  | some r => (r, m, false)
  | none =>
    let r : AccountRecord :=
      match session address with
      | none => ⟨0, 0, 0⟩
      | some st => ⟨st.Nonce, st.Balance, 0⟩
    (r, m ++ [(address, r)], true)

/-- Adding to the consumed balance of an address's record. -/
def addToConsumed (m : RecordsMap) (a : Nat) (v : Int) : RecordsMap :=
  m.map (fun p =>
    if p.1 == a then (p.1, ⟨p.2.initialNonce, p.2.initialBalance, p.2.consumedBalance + v⟩)
    else p)

/-- accumulateConsumedBalance: add the transferred value to the sender's
consumed balance and the fee to the fee-payer's consumed balance; nil fields
contribute nothing. -/
def accumulateConsumedBalance (session : SelectionSession) (m : RecordsMap)
    (tx : WrappedTransaction) : RecordsMap :=
  let sender := getSender tx
  let feePayer := tx.FeePayer
  let m1 := (getAccountRecord session m sender).2.1
  let m2 := (getAccountRecord session m1 feePayer).2.1
  let m3 := match tx.TransferredValue with
    | some v => addToConsumed m2 sender v
    | none => m2
  match tx.Fee with
  | some f => addToConsumed m3 feePayer f
  | none => m3

/-- detectWillFeeExceedBalance: nil fee never exceeds; otherwise the fee
payer's consumed balance plus the fee is compared against its initial
balance with exact integer arithmetic. -/
def detectWillFeeExceedBalance (session : SelectionSession) (m : RecordsMap)
    (tx : WrappedTransaction) : Bool × RecordsMap :=
  match tx.Fee with
  | none => (false, m)
  | some fee =>
    let res := getAccountRecord session m tx.FeePayer
    (decide (res.1.consumedBalance + fee > res.1.initialBalance), res.2.1)

/-- Consumed balance of an address as held by the wrapper (zero when no
record exists yet). -/
def consumedBalanceOf (m : RecordsMap) (a : Nat) : Int :=
  match recordsLookup m a with
  | some r => r.consumedBalance
  | none => 0

/-- State of the cache as seen by AddTx after the optional eviction step. -/
def stAfterEviction (cfg : ConfigSourceMe) (st : CacheState) : CacheState :=
  if cfg.EvictionEnabled then doEviction cfg st else st

/-- A plain transaction for concrete scenarios. -/
def mkTx (sender nonce hash ppu : Nat) : WrappedTransaction :=
  { Tx := some ⟨nonce, sender, 100⟩, TxHash := hash, Size := 1, PricePerGasUnit := ppu,
    Fee := none, TransferredValue := none, FeePayer := sender }

/-- The empty cache. -/
def emptyCache : CacheState := ⟨[], []⟩

/-- Adding a batch of transactions through AddTx, starting from the empty
cache. -/
def addAll (cfg : ConfigSourceMe) (txs : List WrappedTransaction) : CacheState :=
  txs.foldl (fun st tx => (addTx cfg st (some tx)).2) emptyCache

/-- Configuration of the uniform-distribution eviction scenario:
CountThreshold 100, NumItemsToPreemptivelyEvict 1, everything else
unconstrained. -/
def cfgS3 : ConfigSourceMe :=
  { NumBytesThreshold := 1000000000, CountThreshold := 100,
    NumBytesPerSenderThreshold := 1000000000, CountPerSenderThreshold := 1000000,
    EvictionEnabled := true, NumItemsToPreemptivelyEvict := 1 }

/-- The 110 transactions of the scenario: 11 senders times 10 transactions,
added round-robin. -/
def s3Txs : List WrappedTransaction :=
  (List.range 110).map (fun i => mkTx (i % 11) (i / 11) i 100)

/-- Configuration with a per-sender count cap of one and eviction
disabled, for the per-sender overflow exhibits. -/
def cfgOverflow : ConfigSourceMe :=
  { NumBytesThreshold := 1000000, CountThreshold := 1000000,
    NumBytesPerSenderThreshold := 1000000, CountPerSenderThreshold := 1,
    EvictionEnabled := false, NumItemsToPreemptivelyEvict := 1 }

/-- Resident transaction of sender 1 in the overflow exhibits. -/
def owTx1 : WrappedTransaction := mkTx 1 1 1 100

/-- Higher-nonce transaction of sender 1, immediately evicted again by the
per-sender count cap in the overflow exhibits. -/
def owTx2 : WrappedTransaction := mkTx 1 2 2 100

/-- Cache already holding owTx1, consistently in both maps. -/
def owSt : CacheState := ⟨[owTx1], [(1, [owTx1])]⟩

/-- The C3 property at a given heap: after one collection pass, every sender
owning a transaction that the pass did not collect still owns a live cursor
in the reused heap. -/
def passKeepsCursors (cfg : ConfigSourceMe) (heapL : List TransactionsHeapItem) : Prop :=
  ∀ tx ∈ heapTxs heapL, tx ∉ (runPass cfg heapL).1 →
    getSender tx ∈ heapSenders (runPass cfg heapL).2

/-- Heap for the C3 counterexample: sender 1 has two transactions (low
price per gas unit), sender 2 has one (high price per gas unit). -/
def ceHeap : List TransactionsHeapItem :=
  [⟨mkTx 1 2 2 100, [mkTx 1 1 1 100]⟩, ⟨mkTx 2 1 10 900, []⟩]

/-- Configuration whose capacity is always exceeded, with a batch size of
one. -/
def cfgEvict1 : ConfigSourceMe :=
  { NumBytesThreshold := 0, CountThreshold := 0, NumBytesPerSenderThreshold := 0,
    CountPerSenderThreshold := 0, EvictionEnabled := true, NumItemsToPreemptivelyEvict := 1 }

/-- Configuration with batch size three and capacity always exceeded, for
the eviction-pass witness. -/
def c4cfg : ConfigSourceMe :=
  { NumBytesThreshold := 0, CountThreshold := 0, NumBytesPerSenderThreshold := 0,
    CountPerSenderThreshold := 0, EvictionEnabled := true, NumItemsToPreemptivelyEvict := 3 }

/-- Heap with one cursor over sender 1's bunch (nonces 3 then 2). -/
def c4heap : List TransactionsHeapItem := [⟨mkTx 1 3 3 100, [mkTx 1 2 2 100]⟩]

/-- By-sender map holding sender 1's list (nonces 2 and 3). -/
def c4m : SenderMap := [(1, [mkTx 1 2 2 100, mkTx 1 3 3 100])]

/-- Session reporting nonce 0 and balance 100 for every address. -/
def sessAlice : SelectionSession := fun _ => some ⟨0, 100⟩

/-- Transaction with fee 60 payable by address 1, for the balance-gate
scenario. -/
def feeTx (h : Nat) : WrappedTransaction :=
  { Tx := some ⟨h, 1, 100⟩, TxHash := h, Size := 1, PricePerGasUnit := 100,
    Fee := some 60, TransferredValue := none, FeePayer := 1 }

/-- Transaction with nil fee but a transferred value of 5, whose fee payer
coincides with its sender (address 7). -/
def tvTx : WrappedTransaction :=
  { Tx := some ⟨0, 7, 100⟩, TxHash := 1, Size := 1, PricePerGasUnit := 100,
    Fee := none, TransferredValue := some 5, FeePayer := 7 }

/-- Numeric digest of a transaction, used only to drive evaluation. -/
def forceTx (t : WrappedTransaction) : Nat :=
  (match t.Tx with
   | some d => d.nonce + d.sndAddr + d.gasPrice
   | none => 0) +
  t.TxHash + t.Size + t.PricePerGasUnit + t.FeePayer +
  (match t.Fee with | some v => v.natAbs | none => 0) +
  (match t.TransferredValue with | some v => v.natAbs | none => 0)

/-- Numeric digest of a transaction list. -/
def forceTxList (l : List WrappedTransaction) : Nat :=
  l.foldl (fun n t => n + forceTx t) 0

/-- Numeric digest of a cache state. -/
def forceState (st : CacheState) : Nat :=
  forceTxList st.byHash + st.bySender.foldl (fun n p => n + p.1 + forceTxList p.2) 0

/-- Tail-recursive batch addition that inspects the digest of every
intermediate state; provably equal to the foldl of addTx (see
addAllGo_eq_foldl), it exists only to keep evaluation depth bounded. -/
def addAllGo (cfg : ConfigSourceMe) : List WrappedTransaction → CacheState → CacheState
  | [], st => st
  | tx :: txs, st =>
    match forceState st with
    | 0 => addAllGo cfg txs (addTx cfg st (some tx)).2
    | _ + 1 => addAllGo cfg txs (addTx cfg st (some tx)).2

/-- Batch addition via addAllGo, starting from the empty cache. -/
def addAllForced (cfg : ConfigSourceMe) (txs : List WrappedTransaction) : CacheState :=
  addAllGo cfg txs emptyCache

/-- Cache holding three transactions of sender 1 (nonces 1, 2, 3, hashes
1, 2, 3), consistent across both maps. -/
def c1St : CacheState :=
  ⟨[mkTx 1 1 1 100, mkTx 1 2 2 100, mkTx 1 3 3 100],
    [(1, [mkTx 1 1 1 100, mkTx 1 2 2 100, mkTx 1 3 3 100])]⟩

/-- Well-formedness of a cache state (spec invariants I1-I3 at quiescence):
distinct hashes in the by-hash map, distinct sender keys, every listed
transaction keyed by its own sender, and the two maps in agreement. -/
@[reducible] def CacheWF (st : CacheState) : Prop :=
  (hashesOf st.byHash).Nodup ∧
  (st.bySender.map Prod.fst).Nodup ∧
  (∀ p ∈ st.bySender, ∀ t ∈ p.2, getSender t = p.1) ∧
  (∀ tx ∈ st.byHash, ∃ p ∈ st.bySender, tx ∈ p.2) ∧
  (∀ p ∈ st.bySender, ∀ t ∈ p.2, t ∈ st.byHash)

end TxCacheModel

namespace TxCacheModel

/-! Supporting lemmas. -/

theorem addAllGo_eq_foldl (cfg : ConfigSourceMe) (txs : List WrappedTransaction) :
    ∀ st : CacheState,
      addAllGo cfg txs st = txs.foldl (fun st tx => (addTx cfg st (some tx)).2) st := by
  induction txs with
  | nil => intro st; rfl
  | cons tx txs ih =>
    intro st
    have hstep : addAllGo cfg (tx :: txs) st = addAllGo cfg txs (addTx cfg st (some tx)).2 := by
      conv_lhs => rw [addAllGo]
      rcases forceState st with _ | n <;> rfl
    rw [hstep, ih, List.foldl_cons]

theorem addAllForced_eq (cfg : ConfigSourceMe) (txs : List WrappedTransaction) :
    addAllForced cfg txs = addAll cfg txs := by
  unfold addAllForced addAll
  exact addAllGo_eq_foldl cfg txs emptyCache

theorem recordsLookup_append_self (m : RecordsMap) (a : Nat) (r : AccountRecord)
    (h : recordsLookup m a = none) : recordsLookup (m ++ [(a, r)]) a = some r := by
  induction m with
  | nil => simp [recordsLookup]
  | cons p ps ih =>
    by_cases hp : p.1 = a
    · exfalso
      simp [recordsLookup, List.find?_cons, hp] at h
    · have h' : recordsLookup ps a = none := by
        simpa [recordsLookup, List.find?_cons, hp] using h
      simpa [recordsLookup, List.find?_cons, hp] using ih h'

theorem recordsLookup_cons (p : Nat × AccountRecord) (ps : RecordsMap) (a : Nat) :
    recordsLookup (p :: ps) a = if p.1 = a then some p.2 else recordsLookup ps a := by
  by_cases hp : p.1 = a <;> simp [recordsLookup, List.find?_cons, hp]

theorem recordsLookup_append_one (m : RecordsMap) (p : Nat × AccountRecord) (b : Nat) :
    recordsLookup (m ++ [p]) b =
      match recordsLookup m b with
      | some r => some r
      | none => if p.1 = b then some p.2 else none := by
  induction m with
  | nil =>
    by_cases hp : p.1 = b <;> simp [recordsLookup, recordsLookup_cons, hp]
  | cons q qs ih =>
    by_cases hq : q.1 = b
    · simp [List.cons_append, recordsLookup_cons, hq]
    · simp [List.cons_append, recordsLookup_cons, hq, ih]

theorem consumedBalanceOf_getAccountRecord (session : SelectionSession) (m : RecordsMap)
    (a b : Nat) :
    consumedBalanceOf (getAccountRecord session m a).2.1 b = consumedBalanceOf m b := by
  unfold getAccountRecord
  cases hm : recordsLookup m a with
  | some r => rfl
  | none =>
    simp only [consumedBalanceOf, recordsLookup_append_one]
    cases hb : recordsLookup m b with
    | some r => rfl
    | none =>
      by_cases hab : a = b
      · subst hab
        simp only [if_pos rfl]
        cases session a <;> rfl
      · simp [hab]

theorem recordsLookup_addToConsumed_other (m : RecordsMap) (a b : Nat) (v : Int)
    (h : b ≠ a) : recordsLookup (addToConsumed m a v) b = recordsLookup m b := by
  induction m with
  | nil => rfl
  | cons p ps ih =>
    have hcons : addToConsumed (p :: ps) a v =
        (if p.1 == a then
          ((p.1, ⟨p.2.initialNonce, p.2.initialBalance, p.2.consumedBalance + v⟩) :
            Nat × AccountRecord)
         else p) :: addToConsumed ps a v := rfl
    rw [hcons, recordsLookup_cons, recordsLookup_cons]
    by_cases hpb : p.1 = b
    · have hpa : ¬(p.1 = a) := by rw [hpb]; exact h
      simp [hpa, hpb, h]
    · have hfst : (if p.1 == a then
          ((p.1, ⟨p.2.initialNonce, p.2.initialBalance, p.2.consumedBalance + v⟩) :
            Nat × AccountRecord)
         else p).1 = p.1 := by
        by_cases hp : p.1 = a <;> simp [hp]
      rw [if_neg (by rw [hfst]; exact hpb), if_neg hpb, ih]

theorem consumedBalanceOf_addToConsumed_other (m : RecordsMap) (a b : Nat) (v : Int)
    (h : b ≠ a) : consumedBalanceOf (addToConsumed m a v) b = consumedBalanceOf m b := by
  unfold consumedBalanceOf
  rw [recordsLookup_addToConsumed_other m a b v h]

theorem mem_insertSorted (tx t : WrappedTransaction) (l : List WrappedTransaction) :
    t ∈ insertSorted tx l ↔ t = tx ∨ t ∈ l := by
  induction l with
  | nil => simp [insertSorted]
  | cons q qs ih =>
    by_cases hq : txComesBefore q tx = true
    · rw [insertSorted, if_pos hq]
      rw [List.mem_cons, ih, List.mem_cons]
      tauto
    · rw [insertSorted, if_neg hq]
      simp only [List.mem_cons]

theorem find?_hash_eq (m : List WrappedTransaction) (tx : WrappedTransaction)
    (hnd : (hashesOf m).Nodup) (hmem : tx ∈ m) :
    m.find? (fun t => t.TxHash == tx.TxHash) = some tx := by
  induction m with
  | nil => cases hmem
  | cons q qs ih =>
    have hnd' : q.TxHash ∉ hashesOf qs ∧ (hashesOf qs).Nodup := by
      simpa [hashesOf] using hnd
    rcases List.mem_cons.mp hmem with rfl | hmem'
    · simp [List.find?_cons]
    · have hq : (q.TxHash == tx.TxHash) = false := by
        simp only [beq_eq_false_iff_ne, ne_eq]
        intro e
        exact hnd'.1 (e ▸ List.mem_map_of_mem (fun t => t.TxHash) hmem')
      simp only [List.find?_cons, hq]
      exact ih hnd'.2 hmem'

theorem hash_inj (m : List WrappedTransaction) (hnd : (hashesOf m).Nodup)
    (t u : WrappedTransaction) (ht : t ∈ m) (hu : u ∈ m) (he : t.TxHash = u.TxHash) :
    t = u := by
  have h1 := find?_hash_eq m t hnd ht
  have h2 := find?_hash_eq m u hnd hu
  rw [he] at h1
  rw [h1] at h2
  exact Option.some_injective _ h2

theorem entries_eq_of_nodupKeys (m : SenderMap)
    (hnd : (m.map Prod.fst).Nodup) (p q : Nat × List WrappedTransaction)
    (hp : p ∈ m) (hq : q ∈ m) (hkey : p.1 = q.1) : p = q := by
  induction m with
  | nil => cases hp
  | cons e es ih =>
    have hnd' : e.1 ∉ es.map Prod.fst ∧ (es.map Prod.fst).Nodup := by
      simpa using hnd
    rcases List.mem_cons.mp hp with rfl | hp' <;> rcases List.mem_cons.mp hq with rfl | hq'
    · rfl
    · exact absurd (hkey ▸ List.mem_map_of_mem Prod.fst hq') hnd'.1
    · exact absurd (hkey ▸ List.mem_map_of_mem Prod.fst hp') hnd'.1
    · exact ih hnd'.2 hp' hq'

theorem senderMapLookup_cons (p : Nat × List WrappedTransaction) (ps : SenderMap) (s : Nat) :
    senderMapLookup (p :: ps) s = if p.1 = s then some p.2 else senderMapLookup ps s := by
  by_cases hp : p.1 = s <;> simp [senderMapLookup, List.find?_cons, hp]

theorem senderMapLookup_of_mem (m : SenderMap) (p : Nat × List WrappedTransaction)
    (hnd : (m.map Prod.fst).Nodup) (hp : p ∈ m) :
    senderMapLookup m p.1 = some p.2 := by
  induction m with
  | nil => cases hp
  | cons e es ih =>
    have hnd' : e.1 ∉ es.map Prod.fst ∧ (es.map Prod.fst).Nodup := by
      simpa using hnd
    rcases List.mem_cons.mp hp with rfl | hp'
    · simp [senderMapLookup_cons]
    · have he : e.1 ≠ p.1 := by
        intro hkey
        exact hnd'.1 (hkey ▸ List.mem_map_of_mem Prod.fst hp')
      rw [senderMapLookup_cons, if_neg he]
      exact ih hnd'.2 hp'

theorem mem_senderMapSet (m : SenderMap) (s : Nat) (l : List WrappedTransaction)
    (p : Nat × List WrappedTransaction) (hp : p ∈ senderMapSet m s l) :
    p = (s, l) ∨ (p ∈ m ∧ p.1 ≠ s) := by
  unfold senderMapSet at hp
  by_cases hfound : (m.find? (fun q => q.1 == s)).isSome
  · rw [if_pos hfound] at hp
    by_cases hemp : l.isEmpty
    · rw [if_pos hemp] at hp
      have := List.mem_filter.mp hp
      right
      refine ⟨this.1, ?_⟩
      simpa using this.2
    · rw [if_neg hemp] at hp
      rcases List.mem_map.mp hp with ⟨q, hq, he⟩
      by_cases hqs : q.1 = s
      · left
        rw [← he]
        simp [hqs]
      · right
        have : p = q := by rw [← he]; simp [hqs]
        rw [this]
        exact ⟨hq, hqs⟩
  · rw [if_neg hfound] at hp
    have hnone : m.find? (fun q => q.1 == s) = none :=
      Option.not_isSome_iff_eq_none.mp hfound
    by_cases hemp : l.isEmpty
    · rw [if_pos hemp] at hp
      right
      refine ⟨hp, ?_⟩
      intro he
      have := List.find?_eq_none.mp hnone p hp
      simp [he] at this
    · rw [if_neg hemp] at hp
      rcases List.mem_append.mp hp with hp' | hp'
      · right
        refine ⟨hp', ?_⟩
        intro he
        have := List.find?_eq_none.mp hnone p hp'
        simp [he] at this
      · left
        simpa using hp'

theorem senderMapLookup_mapReplace (m : SenderMap) (s : Nat) (l : List WrappedTransaction) :
    senderMapLookup (m.map (fun p => if p.1 == s then (s, l) else p)) s =
      if (senderMapLookup m s).isSome then some l else none := by
  induction m with
  | nil => simp [senderMapLookup]
  | cons p ps ih =>
    by_cases hp : p.1 = s
    · rw [List.map_cons, if_pos (by simp [hp] : (p.1 == s) = true),
        senderMapLookup_cons, if_pos rfl, senderMapLookup_cons, if_pos hp]
      rfl
    · rw [List.map_cons, if_neg (by simp [hp] : ¬(p.1 == s) = true),
        senderMapLookup_cons, if_neg hp, senderMapLookup_cons, if_neg hp, ih]

theorem senderMapLookup_mapReplace_other (m : SenderMap) (s s' : Nat)
    (l : List WrappedTransaction) (hne : s' ≠ s) :
    senderMapLookup (m.map (fun p => if p.1 == s then (s, l) else p)) s' =
      senderMapLookup m s' := by
  induction m with
  | nil => rfl
  | cons p ps ih =>
    by_cases hp : p.1 = s
    · have h1 : ¬(s = s') := fun e => hne e.symm
      have h2 : ¬(p.1 = s') := by rw [hp]; exact h1
      rw [List.map_cons, if_pos (by simp [hp] : (p.1 == s) = true),
        senderMapLookup_cons, senderMapLookup_cons, if_neg h2]
      simp only [h1, if_false]
      exact ih
    · rw [List.map_cons, if_neg (by simp [hp] : ¬(p.1 == s) = true),
        senderMapLookup_cons, senderMapLookup_cons]
      by_cases hps' : p.1 = s'
      · rw [if_pos hps', if_pos hps']
      · rw [if_neg hps', if_neg hps', ih]

theorem senderMapLookup_filterOut (m : SenderMap) (s : Nat) :
    senderMapLookup (m.filter (fun p => p.1 != s)) s = none := by
  induction m with
  | nil => rfl
  | cons p ps ih =>
    by_cases hp : p.1 = s
    · rw [List.filter_cons_of_neg (by simp [hp])]
      exact ih
    · rw [List.filter_cons_of_pos (by simp [hp]), senderMapLookup_cons, if_neg hp]
      exact ih

theorem senderMapLookup_filterOut_other (m : SenderMap) (s s' : Nat) (hne : s' ≠ s) :
    senderMapLookup (m.filter (fun p => p.1 != s)) s' = senderMapLookup m s' := by
  induction m with
  | nil => rfl
  | cons p ps ih =>
    by_cases hp : p.1 = s
    · have h2 : ¬(p.1 = s') := by rw [hp]; exact fun e => hne e.symm
      rw [List.filter_cons_of_neg (by simp [hp]), senderMapLookup_cons, if_neg h2]
      exact ih
    · rw [List.filter_cons_of_pos (by simp [hp]), senderMapLookup_cons, senderMapLookup_cons]
      by_cases hps' : p.1 = s'
      · rw [if_pos hps', if_pos hps']
      · rw [if_neg hps', if_neg hps', ih]

theorem senderMapLookup_append_one (m : SenderMap) (s : Nat) (l : List WrappedTransaction) :
    senderMapLookup (m ++ [(s, l)]) s = some ((senderMapLookup m s).getD l) := by
  induction m with
  | nil => simp [senderMapLookup_cons, senderMapLookup]
  | cons p ps ih =>
    by_cases hp : p.1 = s
    · rw [List.cons_append, senderMapLookup_cons, if_pos hp, senderMapLookup_cons, if_pos hp]
      rfl
    · rw [List.cons_append, senderMapLookup_cons, if_neg hp, senderMapLookup_cons, if_neg hp, ih]

theorem senderMapLookup_append_one_other (m : SenderMap) (s s' : Nat)
    (l : List WrappedTransaction) (hne : s' ≠ s) :
    senderMapLookup (m ++ [(s, l)]) s' = senderMapLookup m s' := by
  induction m with
  | nil =>
    rw [List.nil_append, senderMapLookup_cons, if_neg (fun e => hne e.symm)]
  | cons p ps ih =>
    by_cases hp : p.1 = s'
    · rw [List.cons_append, senderMapLookup_cons, if_pos hp, senderMapLookup_cons, if_pos hp]
    · rw [List.cons_append, senderMapLookup_cons, if_neg hp, senderMapLookup_cons, if_neg hp, ih]

theorem lookup_isSome_of_find?_isSome (m : SenderMap) (s : Nat) :
    (m.find? (fun q => q.1 == s)).isSome = (senderMapLookup m s).isSome := by
  unfold senderMapLookup
  cases m.find? (fun q => q.1 == s) <;> rfl

theorem senderMapLookup_set_self (m : SenderMap) (s : Nat) (l : List WrappedTransaction) :
    senderMapLookup (senderMapSet m s l) s = if l.isEmpty then none else some l := by
  unfold senderMapSet
  by_cases hfound : (m.find? (fun q => q.1 == s)).isSome
  · rw [if_pos hfound]
    by_cases hemp : l.isEmpty
    · rw [if_pos hemp, if_pos hemp]
      exact senderMapLookup_filterOut m s
    · rw [if_neg hemp, if_neg hemp, senderMapLookup_mapReplace,
        if_pos ((lookup_isSome_of_find?_isSome m s) ▸ hfound)]
  · rw [if_neg hfound]
    by_cases hemp : l.isEmpty
    · rw [if_pos hemp, if_pos hemp]
      unfold senderMapLookup
      rw [Option.not_isSome_iff_eq_none.mp hfound]
      rfl
    · rw [if_neg hemp, if_neg hemp, senderMapLookup_append_one]
      have : senderMapLookup m s = none := by
        unfold senderMapLookup
        rw [Option.not_isSome_iff_eq_none.mp hfound]
        rfl
      rw [this]
      rfl

theorem senderMapLookup_set_other (m : SenderMap) (s s' : Nat)
    (l : List WrappedTransaction) (hne : s' ≠ s) :
    senderMapLookup (senderMapSet m s l) s' = senderMapLookup m s' := by
  unfold senderMapSet
  by_cases hfound : (m.find? (fun q => q.1 == s)).isSome
  · rw [if_pos hfound]
    by_cases hemp : l.isEmpty
    · rw [if_pos hemp]
      exact senderMapLookup_filterOut_other m s s' hne
    · rw [if_neg hemp]
      exact senderMapLookup_mapReplace_other m s s' l hne
  · rw [if_neg hfound]
    by_cases hemp : l.isEmpty
    · rw [if_pos hemp]
    · rw [if_neg hemp]
      exact senderMapLookup_append_one_other m s s' l hne

theorem senderMapSet_keys_nodup (m : SenderMap) (s : Nat) (l : List WrappedTransaction)
    (hnd : (m.map Prod.fst).Nodup) :
    ((senderMapSet m s l).map Prod.fst).Nodup := by
  unfold senderMapSet
  by_cases hfound : (m.find? (fun q => q.1 == s)).isSome
  · rw [if_pos hfound]
    by_cases hemp : l.isEmpty
    · rw [if_pos hemp]
      exact ((List.filter_sublist m).map Prod.fst).nodup hnd
    · rw [if_neg hemp]
      have : ((m.map (fun p => if p.1 == s then (s, l) else p)).map Prod.fst) =
          m.map Prod.fst := by
        rw [List.map_map]
        apply List.map_congr_left
        intro p _
        by_cases hp : p.1 = s
        · simp [hp]
        · simp [hp]
      rw [this]
      exact hnd
  · rw [if_neg hfound]
    by_cases hemp : l.isEmpty
    · rw [if_pos hemp]; exact hnd
    · rw [if_neg hemp]
      rw [List.map_append]
      have hnone : m.find? (fun q => q.1 == s) = none :=
        Option.not_isSome_iff_eq_none.mp hfound
      have hout : s ∉ m.map Prod.fst := by
        intro hs
        rcases List.mem_map.mp hs with ⟨p, hp, he⟩
        have := List.find?_eq_none.mp hnone p hp
        simp [he] at this
      simp only [List.map_cons, List.map_nil]
      exact List.Nodup.append hnd (List.nodup_singleton s)
        (by intro a ha hb; simp at hb; exact hout (hb ▸ ha))

theorem senderMapSet_lookup_id (m : SenderMap) (s : Nat) (l : List WrappedTransaction)
    (hnd : (m.map Prod.fst).Nodup) (hlook : senderMapLookup m s = some l)
    (hne : l ≠ []) : senderMapSet m s l = m := by
  obtain ⟨p, hfind, hsnd⟩ : ∃ p, m.find? (fun q => q.1 == s) = some p ∧ p.2 = l := by
    unfold senderMapLookup at hlook
    cases hf : m.find? (fun q => q.1 == s) with
    | none => rw [hf] at hlook; cases hlook
    | some p => rw [hf] at hlook; exact ⟨p, rfl, by simpa using hlook⟩
  have hpm : p ∈ m := List.mem_of_find?_eq_some hfind
  have hps : p.1 = s := by simpa using List.find?_some hfind
  unfold senderMapSet
  rw [if_pos (by rw [hfind]; rfl), if_neg (by simpa using hne)]
  have hall : ∀ q ∈ m,
      (if q.1 == s then ((s, l) : Nat × List WrappedTransaction) else q) = q := by
    intro q hq
    by_cases hqs : q.1 = s
    · have hqp : q = p := entries_eq_of_nodupKeys m hnd q p hq hpm (by rw [hqs, hps])
      subst hqp
      rw [if_pos (by simp [hqs])]
      rw [← hps, ← hsnd]
    · rw [if_neg (by simp [hqs])]
  calc m.map (fun q => if q.1 == s then ((s, l) : Nat × List WrappedTransaction) else q)
      = m.map id := List.map_congr_left hall
    _ = m := List.map_id m

theorem mem_hashMapRemoveTxsBulk (m : List WrappedTransaction) (hs : List Nat)
    (t : WrappedTransaction) :
    t ∈ hashMapRemoveTxsBulk m hs ↔ t ∈ m ∧ t.TxHash ∉ hs := by
  simp [hashMapRemoveTxsBulk, List.mem_filter]

theorem withinSenderConstraints_nil (cfg : ConfigSourceMe) :
    withinSenderConstraints cfg [] = true := by
  simp [withinSenderConstraints, listNumBytes]

theorem applySizeConstraints_of_within (cfg : ConfigSourceMe) (fuel : Nat)
    (l : List WrappedTransaction) (hw : withinSenderConstraints cfg l = true) :
    applySizeConstraints cfg fuel l = (l, []) := by
  cases fuel with
  | zero => rfl
  | succ n => simp [applySizeConstraints, hw]

theorem applySizeConstraints_within (cfg : ConfigSourceMe) :
    ∀ (fuel : Nat) (l : List WrappedTransaction), l.length ≤ fuel →
      withinSenderConstraints cfg (applySizeConstraints cfg fuel l).1 = true := by
  intro fuel
  induction fuel with
  | zero =>
    intro l hl
    have : l = [] := List.eq_nil_of_length_eq_zero (Nat.le_zero.mp hl)
    subst this
    simp [applySizeConstraints, withinSenderConstraints_nil cfg]
  | succ n ih =>
    intro l hl
    by_cases hw : withinSenderConstraints cfg l = true
    · rw [applySizeConstraints_of_within cfg _ l hw]
      exact hw
    · cases hlast : l.getLast? with
      | none =>
        have : l = [] := by
          cases l with
          | nil => rfl
          | cons a as => simp [List.getLast?_concat] at hlast
        subst this
        exact absurd (withinSenderConstraints_nil cfg) hw
      | some t =>
        have hres : (applySizeConstraints cfg (n + 1) l).1 =
            (applySizeConstraints cfg n l.dropLast).1 := by
          simp [applySizeConstraints, hw, hlast]
        rw [hres]
        apply ih
        have : l ≠ [] := by
          intro he
          subst he
          exact absurd (withinSenderConstraints_nil cfg) hw
        have hlen : l.dropLast.length = l.length - 1 := List.length_dropLast l
        omega

theorem mem_applySizeConstraints_evict (cfg : ConfigSourceMe) :
    ∀ (fuel : Nat) (l : List WrappedTransaction) (t : WrappedTransaction),
      t ∈ l → t ∉ (applySizeConstraints cfg fuel l).1 →
      t.TxHash ∈ (applySizeConstraints cfg fuel l).2 := by
  intro fuel
  induction fuel with
  | zero =>
    intro l t hmem hout
    exact absurd hmem hout
  | succ n ih =>
    intro l t hmem hout
    by_cases hw : withinSenderConstraints cfg l = true
    · rw [applySizeConstraints_of_within cfg _ l hw] at hout
      exact absurd hmem hout
    · cases hlast : l.getLast? with
      | none =>
        have : l = [] := by
          cases l with
          | nil => rfl
          | cons a as => simp [List.getLast?_concat] at hlast
        subst this
        cases hmem
      | some t0 =>
        have hne : l ≠ [] := by
          intro he
          rw [he] at hlast
          cases hlast
        have ht0 : t0 = l.getLast hne := by
          have := List.getLast?_eq_getLast l hne
          rw [hlast] at this
          exact Option.some_injective _ this
        have hsplit : l.dropLast ++ [l.getLast hne] = l :=
          List.dropLast_append_getLast hne
        have h1 : (applySizeConstraints cfg (n + 1) l).1 =
            (applySizeConstraints cfg n l.dropLast).1 := by
          simp [applySizeConstraints, hw, hlast]
        have h2 : (applySizeConstraints cfg (n + 1) l).2 =
            t0.TxHash :: (applySizeConstraints cfg n l.dropLast).2 := by
          simp [applySizeConstraints, hw, hlast]
        rw [h2]
        rcases List.mem_append.mp (hsplit ▸ hmem) with hd | hl
        · rw [h1] at hout
          exact List.mem_cons_of_mem _ (ih l.dropLast t hd hout)
        · have : t = l.getLast hne := by simpa using hl
          rw [this, ← ht0]
          exact List.mem_cons_self _ _

theorem addTxReturnEvicted_unfold (cfg : ConfigSourceMe) (m : SenderMap)
    (w : WrappedTransaction) :
    addTxReturnEvicted cfg m w =
      ((tryAddToList w ((senderMapLookup m (getSender w)).getD [])).1,
        (applySenderConstraints cfg
          (tryAddToList w ((senderMapLookup m (getSender w)).getD [])).2).2,
        senderMapSet m (getSender w)
          (applySenderConstraints cfg
            (tryAddToList w ((senderMapLookup m (getSender w)).getD [])).2).1) := rfl

theorem addTx_unfold (cfg : ConfigSourceMe) (st : CacheState) (w : WrappedTransaction)
    (d : TxData) (hTx : w.Tx = some d) (hev : cfg.EvictionEnabled = false) :
    addTx cfg st (some w) =
      ((true, (hashMapAddTx st.byHash w).1 || (addTxReturnEvicted cfg st.bySender w).1),
        ⟨if (addTxReturnEvicted cfg st.bySender w).2.1.isEmpty
            then (hashMapAddTx st.byHash w).2
            else hashMapRemoveTxsBulk (hashMapAddTx st.byHash w).2
              (addTxReturnEvicted cfg st.bySender w).2.1,
          (addTxReturnEvicted cfg st.bySender w).2.2⟩) := by
  simp only [addTx, hTx, hev, Bool.false_eq_true, if_false]

theorem any_hash_mem (m : List WrappedTransaction) (h : Nat)
    (hmem : h ∈ hashesOf m) : (m.any (fun t => t.TxHash == h)) = true := by
  rcases List.mem_map.mp hmem with ⟨t, ht, he⟩
  exact List.any_eq_true.mpr ⟨t, ht, by simp [he]⟩

theorem popWorst_none : ∀ (l : List TransactionsHeapItem), popWorst l = none → l = [] := by
  intro l h
  cases l with
  | nil => rfl
  | cons i is =>
    unfold popWorst at h
    cases his : popWorst is with
    | none => rw [his] at h; cases h
    | some pr =>
      obtain ⟨j, rest⟩ := pr
      rw [his] at h
      dsimp at h
      split at h <;> cases h

theorem popWorst_perm : ∀ (l : List TransactionsHeapItem) (x : TransactionsHeapItem)
    (xs : List TransactionsHeapItem), popWorst l = some (x, xs) → l.Perm (x :: xs) := by
  intro l
  induction l with
  | nil => intro x xs h; cases h
  | cons i is ih =>
    intro x xs h
    unfold popWorst at h
    cases his : popWorst is with
    | none =>
      rw [his] at h
      have hnil : is = [] := popWorst_none is his
      subst hnil
      simp only [Option.some.injEq, Prod.mk.injEq] at h
      obtain ⟨rfl, rfl⟩ := h
      exact List.Perm.refl _
    | some pr =>
      obtain ⟨j, rest⟩ := pr
      rw [his] at h
      dsimp at h
      by_cases hcmp : isWorse i.currentTransaction j.currentTransaction = true
      · rw [if_pos hcmp] at h
        simp only [Option.some.injEq, Prod.mk.injEq] at h
        obtain ⟨rfl, rfl⟩ := h
        exact List.Perm.cons i (ih j rest his)
      · rw [if_neg hcmp] at h
        simp only [Option.some.injEq, Prod.mk.injEq] at h
        obtain ⟨rfl, rfl⟩ := h
        exact ((ih j rest his).cons i).trans (List.Perm.swap j i rest)

theorem mem_heapTxs (l : List TransactionsHeapItem) (t : WrappedTransaction) :
    t ∈ heapTxs l ↔ ∃ item ∈ l, t ∈ heapItemTxs item := by
  induction l with
  | nil => simp [heapTxs]
  | cons i is ih =>
    simp only [heapTxs, List.mem_append, ih, List.mem_cons]
    constructor
    · rintro (h | ⟨item, hmem, ht⟩)
      · exact ⟨i, Or.inl rfl, h⟩
      · exact ⟨item, Or.inr hmem, ht⟩
    · rintro ⟨item, (rfl | hmem), ht⟩
      · exact Or.inl ht
      · exact Or.inr ⟨item, hmem, ht⟩

theorem heapSenders_perm (l l' : List TransactionsHeapItem) (h : l.Perm l') :
    (heapSenders l).Perm (heapSenders l') := h.map _

theorem collectPass_length (cfg : ConfigSourceMe) :
    ∀ (fuel : Nat) (heapL : List TransactionsHeapItem) (acc : List WrappedTransaction),
      acc.length ≤ cfg.NumItemsToPreemptivelyEvict →
      (collectPass cfg fuel heapL acc).1.length ≤ cfg.NumItemsToPreemptivelyEvict := by
  intro fuel
  induction fuel with
  | zero => intro heapL acc h; exact h
  | succ n ih =>
    intro heapL acc h
    unfold collectPass
    cases hpop : popWorst heapL with
    | none => exact h
    | some pr =>
      obtain ⟨item, heapRest⟩ := pr
      dsimp
      by_cases hq : cfg.NumItemsToPreemptivelyEvict ≤ acc.length
      · rw [if_pos hq]; exact h
      · rw [if_neg hq]
        have hlt : acc.length < cfg.NumItemsToPreemptivelyEvict := Nat.lt_of_not_le hq
        have hlen : (acc ++ [item.currentTransaction]).length ≤
            cfg.NumItemsToPreemptivelyEvict := by
          rw [List.length_append, List.length_singleton]
          omega
        cases hnx : gotoNextTransaction item with
        | some item1 => exact ih _ _ hlen
        | none => exact ih _ _ hlen

theorem collectPass_acc_mem (cfg : ConfigSourceMe) :
    ∀ (fuel : Nat) (heapL : List TransactionsHeapItem) (acc : List WrappedTransaction)
      (a : WrappedTransaction), a ∈ acc → a ∈ (collectPass cfg fuel heapL acc).1 := by
  intro fuel
  induction fuel with
  | zero => intro heapL acc a h; exact h
  | succ n ih =>
    intro heapL acc a h
    unfold collectPass
    cases hpop : popWorst heapL with
    | none => exact h
    | some pr =>
      obtain ⟨item, heapRest⟩ := pr
      dsimp
      by_cases hq : cfg.NumItemsToPreemptivelyEvict ≤ acc.length
      · rw [if_pos hq]; exact h
      · rw [if_neg hq]
        have hmem : a ∈ acc ++ [item.currentTransaction] :=
          List.mem_append.mpr (Or.inl h)
        cases hnx : gotoNextTransaction item with
        | some item1 => exact ih _ _ a hmem
        | none => exact ih _ _ a hmem

theorem gotoNext_facts (item item1 : TransactionsHeapItem)
    (h : gotoNextTransaction item = some item1) :
    heapItemTxs item1 = item.rest := by
  unfold gotoNextTransaction at h
  cases hr : item.rest with
  | nil => rw [hr] at h; cases h
  | cons t ts =>
    rw [hr] at h
    simp only [Option.some.injEq] at h
    rw [← h]
    rfl

theorem collectPass_heap_invariants (cfg : ConfigSourceMe) :
    ∀ (fuel : Nat) (heapL : List TransactionsHeapItem) (acc : List WrappedTransaction),
      heapHomog heapL → (heapSenders heapL).Nodup →
      heapHomog (collectPass cfg fuel heapL acc).2 ∧
      (heapSenders (collectPass cfg fuel heapL acc).2).Nodup ∧
      (∀ s ∈ heapSenders (collectPass cfg fuel heapL acc).2, s ∈ heapSenders heapL) := by
  intro fuel
  induction fuel with
  | zero =>
    intro heapL acc hh hn
    exact ⟨hh, hn, fun s hs => hs⟩
  | succ n ih =>
    intro heapL acc hh hn
    unfold collectPass
    cases hpop : popWorst heapL with
    | none =>
      refine ⟨?_, ?_, ?_⟩
      · intro item hmem; cases hmem
      · exact List.nodup_nil
      · intro s hs; cases hs
    | some pr =>
      obtain ⟨item, heapRest⟩ := pr
      have hperm : heapL.Perm (item :: heapRest) := popWorst_perm heapL item heapRest hpop
      have hpermS : (heapSenders heapL).Perm (heapSenders (item :: heapRest)) :=
        heapSenders_perm _ _ hperm
      have hnodup' : (heapSenders (item :: heapRest)).Nodup := hpermS.nodup_iff.mp hn
      have hhomog' : heapHomog (item :: heapRest) := by
        intro it hmem t ht
        exact hh it (hperm.mem_iff.mpr hmem) t ht
      have hsub : ∀ s ∈ heapSenders (item :: heapRest), s ∈ heapSenders heapL :=
        fun s hs => hpermS.mem_iff.mpr hs
      dsimp
      by_cases hq : cfg.NumItemsToPreemptivelyEvict ≤ acc.length
      · rw [if_pos hq]
        refine ⟨?_, ?_, ?_⟩
        · intro it hmem t ht
          exact hhomog' it (List.mem_cons_of_mem item hmem) t ht
        · exact (List.nodup_cons.mp hnodup').2
        · intro s hs
          exact hsub s (List.mem_cons_of_mem _ hs)
      · rw [if_neg hq]
        cases hnx : gotoNextTransaction item with
        | some item1 =>
          have htxs1 : heapItemTxs item1 = item.rest := gotoNext_facts item item1 hnx
          have hsender1 : getSender item1.currentTransaction =
              getSender item.currentTransaction := by
            apply hhomog' item (List.mem_cons_self _ _)
            have hmem1 : item1.currentTransaction ∈ item.rest := by
              rw [← htxs1]
              exact List.mem_cons_self _ _
            exact List.mem_cons_of_mem _ hmem1
          have hsenders_eq : heapSenders (item1 :: heapRest) =
              heapSenders (item :: heapRest) := by
            simp only [heapSenders, List.map_cons, hsender1]
          have hhomog1 : heapHomog (item1 :: heapRest) := by
            intro it hmem t ht
            rcases List.mem_cons.mp hmem with rfl | hmem'
            · rw [hsender1]
              apply hhomog' item (List.mem_cons_self _ _)
              rw [htxs1] at ht
              exact List.mem_cons_of_mem _ ht
            · exact hhomog' it (List.mem_cons_of_mem _ hmem') t ht
          have hnodup1 : (heapSenders (item1 :: heapRest)).Nodup := by
            rw [hsenders_eq]; exact hnodup'
          obtain ⟨r1, r2, r3⟩ := ih (item1 :: heapRest) (acc ++ [item.currentTransaction])
            hhomog1 hnodup1
          refine ⟨r1, r2, ?_⟩
          intro s hs
          have := r3 s hs
          rw [hsenders_eq] at this
          exact hsub s this
        | none =>
          have hhomogR : heapHomog heapRest := by
            intro it hmem t ht
            exact hhomog' it (List.mem_cons_of_mem _ hmem) t ht
          have hnodupR : (heapSenders heapRest).Nodup := (List.nodup_cons.mp hnodup').2
          obtain ⟨r1, r2, r3⟩ := ih heapRest (acc ++ [item.currentTransaction])
            hhomogR hnodupR
          refine ⟨r1, r2, ?_⟩
          intro s hs
          exact hsub s (List.mem_cons_of_mem _ (r3 s hs))

theorem collectPass_dropped (cfg : ConfigSourceMe) :
    ∀ (fuel : Nat) (heapL : List TransactionsHeapItem) (acc : List WrappedTransaction),
      heapHomog heapL →
      ∃ dropped : Option Nat,
        ∀ tx ∈ heapTxs heapL, tx ∉ (collectPass cfg fuel heapL acc).1 →
          getSender tx ∈ heapSenders (collectPass cfg fuel heapL acc).2 ∨
            some (getSender tx) = dropped := by
  intro fuel
  induction fuel with
  | zero =>
    intro heapL acc hh
    refine ⟨none, ?_⟩
    intro tx htx _
    left
    rcases (mem_heapTxs heapL tx).mp htx with ⟨item, hmem, ht⟩
    rw [hh item hmem tx ht]
    exact List.mem_map_of_mem _ hmem
  | succ n ih =>
    intro heapL acc hh
    unfold collectPass
    cases hpop : popWorst heapL with
    | none =>
      have : heapL = [] := popWorst_none heapL hpop
      subst this
      exact ⟨none, by intro tx htx; cases htx⟩
    | some pr =>
      obtain ⟨item, heapRest⟩ := pr
      have hperm : heapL.Perm (item :: heapRest) := popWorst_perm heapL item heapRest hpop
      have hhomog' : heapHomog (item :: heapRest) := by
        intro it hmem t ht
        exact hh it (hperm.mem_iff.mpr hmem) t ht
      have hmemTxs : ∀ tx, tx ∈ heapTxs heapL ↔ tx ∈ heapTxs (item :: heapRest) := by
        intro tx
        rw [mem_heapTxs, mem_heapTxs]
        constructor
        · rintro ⟨it, hmem, ht⟩; exact ⟨it, hperm.mem_iff.mp hmem, ht⟩
        · rintro ⟨it, hmem, ht⟩; exact ⟨it, hperm.mem_iff.mpr hmem, ht⟩
      dsimp
      by_cases hq : cfg.NumItemsToPreemptivelyEvict ≤ acc.length
      · rw [if_pos hq]
        refine ⟨some (getSender item.currentTransaction), ?_⟩
        intro tx htx _
        rcases (mem_heapTxs _ tx).mp ((hmemTxs tx).mp htx) with ⟨it, hmem, ht⟩
        rcases List.mem_cons.mp hmem with rfl | hmem'
        · right
          rw [hhomog' it (List.mem_cons_self _ _) tx ht]
        · left
          rw [hhomog' it (List.mem_cons_of_mem _ hmem') tx ht]
          exact List.mem_map_of_mem _ hmem'
      · rw [if_neg hq]
        cases hnx : gotoNextTransaction item with
        | some item1 =>
          have htxs1 : heapItemTxs item1 = item.rest := gotoNext_facts item item1 hnx
          have hhomog1 : heapHomog (item1 :: heapRest) := by
            intro it hmem t ht
            rcases List.mem_cons.mp hmem with rfl | hmem'
            · have hs1 : getSender it.currentTransaction =
                  getSender item.currentTransaction := by
                apply hhomog' item (List.mem_cons_self _ _)
                have hmem1 : it.currentTransaction ∈ item.rest := by
                  rw [← htxs1]
                  exact List.mem_cons_self _ _
                exact List.mem_cons_of_mem _ hmem1
              rw [hs1]
              apply hhomog' item (List.mem_cons_self _ _)
              rw [htxs1] at ht
              exact List.mem_cons_of_mem _ ht
            · exact hhomog' it (List.mem_cons_of_mem _ hmem') t ht
          obtain ⟨d, hd⟩ := ih (item1 :: heapRest) (acc ++ [item.currentTransaction]) hhomog1
          refine ⟨d, ?_⟩
          intro tx htx hout
          rcases (mem_heapTxs _ tx).mp ((hmemTxs tx).mp htx) with ⟨it, hmem, ht⟩
          rcases List.mem_cons.mp hmem with rfl | hmem'
          · rcases List.mem_cons.mp ht with heq | hrest
            · exact absurd (collectPass_acc_mem cfg n _ _ tx
                (List.mem_append.mpr (Or.inr (by rw [heq]; exact List.mem_singleton_self _)))) hout
            · apply hd tx _ hout
              rw [mem_heapTxs]
              exact ⟨item1, List.mem_cons_self _ _, htxs1 ▸ hrest⟩
          · apply hd tx _ hout
            rw [mem_heapTxs]
            exact ⟨it, List.mem_cons_of_mem _ hmem', ht⟩
        | none =>
          have hrestnil : item.rest = [] := by
            unfold gotoNextTransaction at hnx
            cases hr : item.rest with
            | nil => rfl
            | cons t ts => rw [hr] at hnx; cases hnx
          have hhomogR : heapHomog heapRest := by
            intro it hmem t ht
            exact hhomog' it (List.mem_cons_of_mem _ hmem) t ht
          obtain ⟨d, hd⟩ := ih heapRest (acc ++ [item.currentTransaction]) hhomogR
          refine ⟨d, ?_⟩
          intro tx htx hout
          rcases (mem_heapTxs _ tx).mp ((hmemTxs tx).mp htx) with ⟨it, hmem, ht⟩
          rcases List.mem_cons.mp hmem with rfl | hmem'
          · rcases List.mem_cons.mp ht with heq | hrest
            · exact absurd (collectPass_acc_mem cfg n _ _ tx
                (List.mem_append.mpr (Or.inr (by rw [heq]; exact List.mem_singleton_self _)))) hout
            · rw [hrestnil] at hrest
              cases hrest
          · apply hd tx _ hout
            rw [mem_heapTxs]
            exact ⟨it, hmem', ht⟩

theorem lookupLowest_cons (p : Nat × Nat) (ps : List (Nat × Nat)) (s : Nat) :
    lookupLowest (p :: ps) s = if p.1 = s then some p.2 else lookupLowest ps s := by
  by_cases hp : p.1 = s <;> simp [lookupLowest, List.find?_cons, hp]

theorem lookupLowest_mapReplace (mm : List (Nat × Nat)) (s n : Nat) (s' : Nat) :
    lookupLowest (mm.map (fun p => if p.1 == s then (s, n) else p)) s' =
      if s' = s then (if (lookupLowest mm s).isSome then some n else none)
      else lookupLowest mm s' := by
  induction mm with
  | nil => by_cases h : s' = s <;> simp [lookupLowest, h]
  | cons p ps ih =>
    by_cases hp : p.1 = s
    · rw [List.map_cons, if_pos (by simp [hp] : (p.1 == s) = true)]
      by_cases hss : s' = s
      · rw [lookupLowest_cons, if_pos (show ((s, n) : Nat × Nat).1 = s' by simp [hss]),
          if_pos hss, lookupLowest_cons, if_pos hp]
        rfl
      · rw [lookupLowest_cons,
          if_neg (show ¬((s, n) : Nat × Nat).1 = s' from fun e => hss (e.symm)),
          if_neg hss, lookupLowest_cons, if_neg (by rw [hp]; exact fun e => hss e.symm), ih,
          if_neg hss]
    · rw [List.map_cons, if_neg (by simp [hp] : ¬(p.1 == s) = true)]
      by_cases hss : s' = s
      · rw [lookupLowest_cons p (List.map (fun p => if p.1 == s then (s, n) else p) ps) s',
          if_neg (show ¬p.1 = s' by rw [hss]; exact hp), ih, if_pos hss, if_pos hss,
          lookupLowest_cons p ps s, if_neg hp]
      · by_cases hps' : p.1 = s'
        · rw [lookupLowest_cons p (List.map (fun p => if p.1 == s then (s, n) else p) ps) s',
            if_pos hps', if_neg hss, lookupLowest_cons p ps s', if_pos hps']
        · rw [lookupLowest_cons p (List.map (fun p => if p.1 == s then (s, n) else p) ps) s',
            if_neg hps', ih, if_neg hss, if_neg hss, lookupLowest_cons p ps s',
            if_neg hps']

theorem lookupLowest_append_one (mm : List (Nat × Nat)) (s n : Nat) (s' : Nat) :
    lookupLowest (mm ++ [(s, n)]) s' =
      if s' = s then some ((lookupLowest mm s).getD n) else lookupLowest mm s' := by
  induction mm with
  | nil =>
    by_cases h : s' = s
    · rw [List.nil_append, lookupLowest_cons, if_pos (by simpa using h.symm), if_pos h]
      rfl
    · rw [List.nil_append, lookupLowest_cons, if_neg (by simpa using fun e => h e.symm),
        if_neg h]
  | cons p ps ih =>
    by_cases hp : p.1 = s'
    · rw [List.cons_append, lookupLowest_cons, if_pos hp]
      by_cases hss : s' = s
      · rw [if_pos hss, lookupLowest_cons, if_pos (hss ▸ hp)]
        rfl
      · rw [if_neg hss, lookupLowest_cons, if_pos hp]
    · rw [List.cons_append, lookupLowest_cons, if_neg hp, ih]
      by_cases hss : s' = s
      · rw [if_pos hss, if_pos hss, lookupLowest_cons, if_neg (hss ▸ hp)]
      · rw [if_neg hss, if_neg hss, lookupLowest_cons, if_neg hp]

theorem lookupLowest_lowestInsert (mm : List (Nat × Nat)) (s n : Nat) (s' : Nat) :
    lookupLowest (lowestInsert mm s n) s' =
      if s' = s then some n else lookupLowest mm s' := by
  unfold lowestInsert
  by_cases hfound : (mm.find? (fun p => p.1 == s)).isSome
  · rw [if_pos hfound, lookupLowest_mapReplace]
    have hsome : (lookupLowest mm s).isSome := by
      unfold lookupLowest
      cases h : mm.find? (fun p => p.1 == s) with
      | none => rw [h] at hfound; cases hfound
      | some p => rfl
    by_cases hss : s' = s
    · rw [if_pos hss, if_pos hss, if_pos hsome]
    · rw [if_neg hss, if_neg hss]
  · rw [if_neg hfound, lookupLowest_append_one]
    have hnone : lookupLowest mm s = none := by
      unfold lookupLowest
      rw [Option.not_isSome_iff_eq_none.mp hfound]
      rfl
    by_cases hss : s' = s
    · rw [if_pos hss, if_pos hss, hnone]
      rfl
    · rw [if_neg hss, if_neg hss]

theorem lowestToEvictBySender_append (txs : List WrappedTransaction)
    (x : WrappedTransaction) :
    lowestToEvictBySender (txs ++ [x]) =
      lowestInsert (lowestToEvictBySender txs) (getSender x) (getNonce x) := by
  unfold lowestToEvictBySender
  rw [List.foldl_append]
  rfl

theorem lowestToEvictBySender_spec (txs : List WrappedTransaction)
    (hdesc : sameSenderDesc txs) :
    (∀ tx ∈ txs, ∃ n, lookupLowest (lowestToEvictBySender txs) (getSender tx) = some n) ∧
    (∀ s n, lookupLowest (lowestToEvictBySender txs) s = some n →
      (∃ tx ∈ txs, getSender tx = s ∧ getNonce tx = n) ∧
      (∀ tx ∈ txs, getSender tx = s → n ≤ getNonce tx)) := by
  induction txs using List.reverseRecOn with
  | nil =>
    constructor
    · intro tx h; cases h
    · intro s n h; cases h
  | append_singleton txs x ih =>
    have hdesc' : sameSenderDesc txs :=
      List.Pairwise.sublist (List.sublist_append_left txs [x]) hdesc
    have hlast : ∀ tx ∈ txs, getSender tx = getSender x → getNonce x < getNonce tx := by
      have h3 := (List.pairwise_append.mp hdesc).2.2
      intro tx htx hts
      exact h3 tx htx x (List.mem_singleton_self x) hts
    obtain ⟨ih1, ih2⟩ := ih hdesc'
    constructor
    · intro tx htx
      rcases List.mem_append.mp htx with h | h
      · by_cases hsx : getSender tx = getSender x
        · exact ⟨getNonce x, by
            rw [lowestToEvictBySender_append, lookupLowest_lowestInsert, if_pos hsx]⟩
        · obtain ⟨n, hn⟩ := ih1 tx h
          exact ⟨n, by
            rw [lowestToEvictBySender_append, lookupLowest_lowestInsert, if_neg hsx]
            exact hn⟩
      · have hx : tx = x := by simpa using h
        subst hx
        exact ⟨getNonce tx, by
          rw [lowestToEvictBySender_append, lookupLowest_lowestInsert, if_pos rfl]⟩
    · intro s n hlook
      rw [lowestToEvictBySender_append, lookupLowest_lowestInsert] at hlook
      by_cases hss : s = getSender x
      · rw [if_pos hss] at hlook
        have hn : n = getNonce x := by
          injection hlook with h
          exact h.symm
        subst hn
        constructor
        · exact ⟨x, List.mem_append.mpr (Or.inr (List.mem_singleton_self x)), hss.symm, rfl⟩
        · intro tx htx hts
          rcases List.mem_append.mp htx with h | h
          · exact Nat.le_of_lt (hlast tx h (by rw [hts, hss]))
          · have hx : tx = x := by simpa using h
            rw [hx]
      · rw [if_neg hss] at hlook
        obtain ⟨hex, hmin⟩ := ih2 s n hlook
        constructor
        · obtain ⟨tx, htx, h1, h2⟩ := hex
          exact ⟨tx, List.mem_append.mpr (Or.inl htx), h1, h2⟩
        · intro tx htx hts
          rcases List.mem_append.mp htx with h | h
          · exact hmin tx h hts
          · have hx : tx = x := by simpa using h
            rw [hx] at hts
            exact absurd hts.symm hss

theorem lowestInsert_keys_nodup (mm : List (Nat × Nat)) (s n : Nat)
    (hnd : (mm.map Prod.fst).Nodup) : ((lowestInsert mm s n).map Prod.fst).Nodup := by
  unfold lowestInsert
  by_cases hfound : (mm.find? (fun p => p.1 == s)).isSome
  · rw [if_pos hfound]
    have : ((mm.map (fun p => if p.1 == s then ((s, n) : Nat × Nat) else p)).map Prod.fst) =
        mm.map Prod.fst := by
      rw [List.map_map]
      apply List.map_congr_left
      intro p _
      by_cases hp : p.1 = s
      · simp [hp]
      · simp [hp]
    rw [this]
    exact hnd
  · rw [if_neg hfound, List.map_append]
    have hnone : mm.find? (fun p => p.1 == s) = none :=
      Option.not_isSome_iff_eq_none.mp hfound
    have hout : s ∉ mm.map Prod.fst := by
      intro hs
      rcases List.mem_map.mp hs with ⟨p, hp, he⟩
      have := List.find?_eq_none.mp hnone p hp
      simp [he] at this
    simp only [List.map_cons, List.map_nil]
    exact List.Nodup.append hnd (List.nodup_singleton s)
      (by intro a ha hb; simp at hb; exact hout (hb ▸ ha))

theorem lowestToEvictBySender_keys_nodup (txs : List WrappedTransaction) :
    ((lowestToEvictBySender txs).map Prod.fst).Nodup := by
  suffices h : ∀ mm : List (Nat × Nat), (mm.map Prod.fst).Nodup →
      ((txs.foldl (fun m tx => lowestInsert m (getSender tx) (getNonce tx)) mm).map
        Prod.fst).Nodup by
    exact h [] (by simp)
  induction txs with
  | nil => intro mm h; exact h
  | cons t ts ih =>
    intro mm h
    rw [List.foldl_cons]
    exact ih _ (lowestInsert_keys_nodup mm (getSender t) (getNonce t) h)

theorem senderTxsOf_removeHigher_self (m : SenderMap) (s n : Nat) :
    senderTxsOf (removeTransactionsWithHigherOrEqualNonce m s n) s =
      (senderTxsOf m s).filter (fun t => decide (getNonce t < n)) := by
  unfold removeTransactionsWithHigherOrEqualNonce
  cases hlk : senderMapLookup m s with
  | none =>
    unfold senderTxsOf
    rw [hlk]
    rfl
  | some l =>
    unfold senderTxsOf
    rw [senderMapLookup_set_self, hlk]
    simp only [Option.getD_some]
    by_cases he : (l.filter (fun t => decide (getNonce t < n))).isEmpty
    · rw [if_pos he]
      have hfe : l.filter (fun t => decide (getNonce t < n)) = [] := by
        cases hc : l.filter (fun t => decide (getNonce t < n)) with
        | nil => rfl
        | cons a as => rw [hc] at he; cases he
      rw [hfe]
      rfl
    · rw [if_neg he]
      rfl

theorem senderTxsOf_removeHigher_other (m : SenderMap) (s n : Nat) (s' : Nat)
    (hne : s' ≠ s) :
    senderTxsOf (removeTransactionsWithHigherOrEqualNonce m s n) s' =
      senderTxsOf m s' := by
  unfold removeTransactionsWithHigherOrEqualNonce
  cases hlk : senderMapLookup m s with
  | none => rfl
  | some l =>
    unfold senderTxsOf
    rw [senderMapLookup_set_other _ _ _ _ hne]

theorem applyEvictionRemovals_cons (m : SenderMap) (p : Nat × Nat)
    (ps : List (Nat × Nat)) :
    applyEvictionRemovals m (p :: ps) =
      applyEvictionRemovals (removeTransactionsWithHigherOrEqualNonce m p.1 p.2) ps := by
  unfold applyEvictionRemovals
  rw [List.foldl_cons]

theorem applyEvictionRemovals_notin (lowest : List (Nat × Nat)) :
    ∀ (m : SenderMap) (s : Nat), s ∉ lowest.map Prod.fst →
      senderTxsOf (applyEvictionRemovals m lowest) s = senderTxsOf m s := by
  induction lowest with
  | nil => intro m s _; rfl
  | cons p ps ih =>
    intro m s h
    have h1 : s ≠ p.1 := by
      intro e
      exact h (by rw [List.map_cons]; exact e ▸ List.mem_cons_self _ _)
    have h2 : s ∉ ps.map Prod.fst := by
      intro hmem
      exact h (by rw [List.map_cons]; exact List.mem_cons_of_mem _ hmem)
    rw [applyEvictionRemovals_cons, ih _ s h2, senderTxsOf_removeHigher_other _ _ _ _ h1]

theorem applyEvictionRemovals_lookup (lowest : List (Nat × Nat)) :
    ∀ (m : SenderMap) (s n : Nat), (lowest.map Prod.fst).Nodup →
      lookupLowest lowest s = some n →
      ∀ t, t ∈ senderTxsOf (applyEvictionRemovals m lowest) s ↔
        (t ∈ senderTxsOf m s ∧ getNonce t < n) := by
  induction lowest with
  | nil =>
    intro m s n _ h
    cases h
  | cons p ps ih =>
    intro m s n hnd hlook t
    rw [lookupLowest_cons] at hlook
    by_cases hps : p.1 = s
    · rw [if_pos hps] at hlook
      have hn : p.2 = n := by
        injection hlook
      have hsnot : s ∉ ps.map Prod.fst := by
        have h1 := hnd
        rw [List.map_cons] at h1
        rw [← hps]
        exact (List.nodup_cons.mp h1).1
      rw [applyEvictionRemovals_cons, applyEvictionRemovals_notin ps _ s hsnot, hps, hn,
        senderTxsOf_removeHigher_self]
      rw [List.mem_filter]
      simp
    · rw [if_neg hps] at hlook
      have hnd' : (ps.map Prod.fst).Nodup := by
        have h1 := hnd
        rw [List.map_cons] at h1
        exact (List.nodup_cons.mp h1).2
      rw [applyEvictionRemovals_cons,
        ih (removeTransactionsWithHigherOrEqualNonce m p.1 p.2) s n hnd' hlook t,
        senderTxsOf_removeHigher_other m p.1 p.2 s (fun e => hps e.symm)]

theorem collectPass_sameSenderDesc (cfg : ConfigSourceMe) :
    ∀ (fuel : Nat) (heapL : List TransactionsHeapItem) (acc : List WrappedTransaction),
      heapDesc heapL → heapHomog heapL → (heapSenders heapL).Nodup →
      sameSenderDesc acc →
      (∀ a ∈ acc, ∀ item ∈ heapL, getSender item.currentTransaction = getSender a →
        ∀ t ∈ heapItemTxs item, getNonce t < getNonce a) →
      sameSenderDesc (collectPass cfg fuel heapL acc).1 := by
  intro fuel
  induction fuel with
  | zero =>
    intro heapL acc _ _ _ hacc _
    exact hacc
  | succ n ih =>
    intro heapL acc hdesc hhomog hnodup hacc hinv
    unfold collectPass
    cases hpop : popWorst heapL with
    | none => exact hacc
    | some pr =>
      obtain ⟨item, heapRest⟩ := pr
      have hperm : heapL.Perm (item :: heapRest) := popWorst_perm heapL item heapRest hpop
      have hitemL : item ∈ heapL := hperm.mem_iff.mpr (List.mem_cons_self _ _)
      dsimp
      by_cases hq : cfg.NumItemsToPreemptivelyEvict ≤ acc.length
      · rw [if_pos hq]
        exact hacc
      · rw [if_neg hq]
        have hdesc' : heapDesc (item :: heapRest) :=
          fun it hmem => hdesc it (hperm.mem_iff.mpr hmem)
        have hhomog' : heapHomog (item :: heapRest) :=
          fun it hmem => hhomog it (hperm.mem_iff.mpr hmem)
        have hnodup' : (heapSenders (item :: heapRest)).Nodup :=
          (heapSenders_perm _ _ hperm).nodup_iff.mp hnodup
        have hnodupC : (getSender item.currentTransaction :: heapSenders heapRest).Nodup :=
          hnodup'
        have haccx : sameSenderDesc (acc ++ [item.currentTransaction]) := by
          apply List.pairwise_append.mpr
          refine ⟨hacc, List.pairwise_singleton _ _, ?_⟩
          intro a ha b hb
          have hbx : b = item.currentTransaction := by simpa using hb
          subst hbx
          intro hsab
          exact hinv a ha item hitemL hsab.symm item.currentTransaction
            (List.mem_cons_self _ _)
        have hdescItem := hdesc' item (List.mem_cons_self _ _)
        have hdescPair := List.pairwise_cons.mp hdescItem
        cases hnx : gotoNextTransaction item with
        | some item1 =>
          have htxs1 : heapItemTxs item1 = item.rest := gotoNext_facts item item1 hnx
          have hsender1 : getSender item1.currentTransaction =
              getSender item.currentTransaction := by
            apply hhomog' item (List.mem_cons_self _ _)
            have hmem1 : item1.currentTransaction ∈ item.rest := by
              rw [← htxs1]
              exact List.mem_cons_self _ _
            exact List.mem_cons_of_mem _ hmem1
          have hdesc1 : heapDesc (item1 :: heapRest) := by
            intro it hmem
            rcases List.mem_cons.mp hmem with rfl | hmem'
            · rw [htxs1]
              exact hdescPair.2
            · exact hdesc' it (List.mem_cons_of_mem _ hmem')
          have hhomog1 : heapHomog (item1 :: heapRest) := by
            intro it hmem t ht
            rcases List.mem_cons.mp hmem with rfl | hmem'
            · rw [hsender1]
              apply hhomog' item (List.mem_cons_self _ _)
              rw [htxs1] at ht
              exact List.mem_cons_of_mem _ ht
            · exact hhomog' it (List.mem_cons_of_mem _ hmem') t ht
          have hsenders_eq : heapSenders (item1 :: heapRest) =
              heapSenders (item :: heapRest) := by
            simp only [heapSenders, List.map_cons, hsender1]
          have hnodup1 : (heapSenders (item1 :: heapRest)).Nodup := by
            rw [hsenders_eq]
            exact hnodup'
          have hinv1 : ∀ a ∈ acc ++ [item.currentTransaction], ∀ it ∈ item1 :: heapRest,
              getSender it.currentTransaction = getSender a →
              ∀ t ∈ heapItemTxs it, getNonce t < getNonce a := by
            intro a ha it hit hsen t ht
            rcases List.mem_append.mp ha with haacc | hax
            · rcases List.mem_cons.mp hit with rfl | hit'
              · apply hinv a haacc item hitemL (by rw [← hsender1]; exact hsen)
                rw [htxs1] at ht
                exact List.mem_cons_of_mem _ ht
              · exact hinv a haacc it
                  (hperm.mem_iff.mpr (List.mem_cons_of_mem _ hit')) hsen t ht
            · have hax' : a = item.currentTransaction := by simpa using hax
              subst hax'
              rcases List.mem_cons.mp hit with rfl | hit'
              · apply hdescPair.1
                rw [← htxs1]
                exact ht
              · exfalso
                have h1 : getSender it.currentTransaction ∈ heapSenders heapRest :=
                  List.mem_map_of_mem _ hit'
                exact (List.nodup_cons.mp hnodupC).1 (hsen ▸ h1)
          exact ih (item1 :: heapRest) (acc ++ [item.currentTransaction])
            hdesc1 hhomog1 hnodup1 haccx hinv1
        | none =>
          have hdescR : heapDesc heapRest :=
            fun it hmem => hdesc' it (List.mem_cons_of_mem _ hmem)
          have hhomogR : heapHomog heapRest :=
            fun it hmem => hhomog' it (List.mem_cons_of_mem _ hmem)
          have hnodupR : (heapSenders heapRest).Nodup := (List.nodup_cons.mp hnodupC).2
          have hinvR : ∀ a ∈ acc ++ [item.currentTransaction], ∀ it ∈ heapRest,
              getSender it.currentTransaction = getSender a →
              ∀ t ∈ heapItemTxs it, getNonce t < getNonce a := by
            intro a ha it hit hsen t ht
            rcases List.mem_append.mp ha with haacc | hax
            · exact hinv a haacc it
                (hperm.mem_iff.mpr (List.mem_cons_of_mem _ hit)) hsen t ht
            · have hax' : a = item.currentTransaction := by simpa using hax
              subst hax'
              exfalso
              have h1 : getSender it.currentTransaction ∈ heapSenders heapRest :=
                List.mem_map_of_mem _ hit
              exact (List.nodup_cons.mp hnodupC).1 (hsen ▸ h1)
          exact ih heapRest (acc ++ [item.currentTransaction])
            hdescR hhomogR hnodupR haccx hinvR

end TxCacheModel

namespace TxCacheModel

/-! Claim theorems. -/

/-- C5: AddTx on a nil transaction, or on a transaction whose underlying
handler is nil, returns (false, false) and leaves the cache state (both
maps) and all the counters unchanged. -/
theorem addTx_nil_rejected (cfg : ConfigSourceMe) (st : CacheState) (w : WrappedTransaction)
    (h : w.Tx = none) :
    addTx cfg st none = ((false, false), st) ∧
    addTx cfg st (some w) = ((false, false), st) ∧
    countTx (addTx cfg st (some w)).2 = countTx st ∧
    numBytes (addTx cfg st (some w)).2 = numBytes st ∧
    countSenders (addTx cfg st (some w)).2 = countSenders st := by
  have h2 : addTx cfg st (some w) = ((false, false), st) := by
    simp [addTx, h]
  exact ⟨rfl, h2, by rw [h2], by rw [h2], by rw [h2]⟩

/-- Witness for C5 at a concrete nil-handler transaction. -/
theorem addTx_nil_rejected_witness :
    let w : WrappedTransaction :=
      { Tx := none, TxHash := 5, Size := 1, PricePerGasUnit := 1,
        Fee := none, TransferredValue := none, FeePayer := 0 }
    addTx cfgOverflow emptyCache none = ((false, false), emptyCache) ∧
    addTx cfgOverflow emptyCache (some w) = ((false, false), emptyCache) := by
  have h := addTx_nil_rejected cfgOverflow emptyCache
    { Tx := none, TxHash := 5, Size := 1, PricePerGasUnit := 1,
      Fee := none, TransferredValue := none, FeePayer := 0 } rfl
  exact ⟨h.1, h.2.1⟩

set_option maxRecDepth 40000 in
/-- C2: capacity is exceeded exactly when one of the three counters is
strictly above its threshold; when none is, doEviction leaves the cache
untouched; and in the uniform scenario (CountThreshold 100,
NumItemsToPreemptivelyEvict 1, 11 senders times 10 transactions) exactly
101 transactions remain. -/
theorem isCapacityExceeded_spec (cfg : ConfigSourceMe) (st : CacheState) :
    (isCapacityExceeded cfg st = true ↔
      (numBytes st > cfg.NumBytesThreshold ∨ countSenders st > cfg.CountThreshold ∨
        countTx st > cfg.CountThreshold)) ∧
    (¬(numBytes st > cfg.NumBytesThreshold ∨ countSenders st > cfg.CountThreshold ∨
        countTx st > cfg.CountThreshold) → doEviction cfg st = st) ∧
    countTx (addAll cfgS3 s3Txs) = 101 := by
  have hiff : isCapacityExceeded cfg st = true ↔
      (numBytes st > cfg.NumBytesThreshold ∨ countSenders st > cfg.CountThreshold ∨
        countTx st > cfg.CountThreshold) := by
    simp only [isCapacityExceeded, areThereTooManyBytes, areThereTooManySenders,
      areThereTooManyTxs, Bool.or_eq_true, decide_eq_true_eq, gt_iff_lt]
    tauto
  refine ⟨hiff, ?_, ?_⟩
  · intro h
    cases hb : isCapacityExceeded cfg st with
    | false => simp [doEviction, hb]
    | true => exact absurd (hiff.mp hb) h
  · rw [← addAllForced_eq]
    decide

/-- Witness for C2 at a concrete non-exceeded state. -/
theorem isCapacityExceeded_spec_witness :
    doEviction cfgS3 emptyCache = emptyCache :=
  (isCapacityExceeded_spec cfgS3 emptyCache).2.1 (by decide)

/-- C6: for a non-nil transaction with a non-nil handler, AddTx returns ok
equal to true and added equal to the disjunction of the two maps' insertion
outcomes (computed on the post-eviction state); the closed exhibit shows
added equal to true even though the transaction was immediately evicted
again by the per-sender count cap, leaving it in neither map. -/
theorem addTx_ok_added (cfg : ConfigSourceMe) (st : CacheState) (w : WrappedTransaction)
    (d : TxData) (h : w.Tx = some d) :
    ((addTx cfg st (some w)).1.1 = true ∧
      (addTx cfg st (some w)).1.2 =
        ((hashMapAddTx (stAfterEviction cfg st).byHash w).1 ||
          (addTxReturnEvicted cfg (stAfterEviction cfg st).bySender w).1)) ∧
    ((addTx cfgOverflow owSt (some owTx2)).1.2 = true ∧
      owTx2 ∉ (addTx cfgOverflow owSt (some owTx2)).2.byHash ∧
      ∀ p ∈ (addTx cfgOverflow owSt (some owTx2)).2.bySender, owTx2 ∉ p.2) := by
  refine ⟨⟨?_, ?_⟩, by decide⟩
  · simp [addTx, h]
  · simp [addTx, h, stAfterEviction]

/-- Witness for C6 at a concrete valid transaction. -/
theorem addTx_ok_added_witness :
    (addTx cfgOverflow emptyCache (some owTx1)).1.1 = true :=
  ((addTx_ok_added cfgOverflow emptyCache owTx1 ⟨1, 1, 100⟩ rfl).1).1

/-- C8: the selection-session wrapper consults the underlying session at
most once per distinct address: a stored record is returned as is without
consulting the session; a first call for an address consults the session
and stores the record; a call performed after a first call returns exactly
the stored record without consulting; and when the session reports an
error the stored record defaults to all zeroes. -/
theorem getAccountRecord_caching (session : SelectionSession) (m : RecordsMap) (a : Nat)
    (hmiss : recordsLookup m a = none) :
    (∀ r, recordsLookup m a = some r → getAccountRecord session m a = (r, m, false)) ∧
    ((getAccountRecord session m a).2.2 = true ∧
      recordsLookup (getAccountRecord session m a).2.1 a =
        some (getAccountRecord session m a).1) ∧
    (getAccountRecord session (getAccountRecord session m a).2.1 a =
      ((getAccountRecord session m a).1, (getAccountRecord session m a).2.1, false)) ∧
    (session a = none → (getAccountRecord session m a).1 = ⟨0, 0, 0⟩) := by
  refine ⟨?_, ?_, ?_, ?_⟩
  · intro r hr
    simp [getAccountRecord, hr]
  · constructor
    · simp [getAccountRecord, hmiss]
    · simp only [getAccountRecord, hmiss]
      exact recordsLookup_append_self m a _ hmiss
  · set res := getAccountRecord session m a with hres
    have hstore : recordsLookup res.2.1 a = some res.1 := by
      rw [hres]
      simp only [getAccountRecord, hmiss]
      exact recordsLookup_append_self m a _ hmiss
    show getAccountRecord session res.2.1 a = (res.1, res.2.1, false)
    simp [getAccountRecord, hstore]
  · intro herr
    simp [getAccountRecord, hmiss, herr]

/-- Witness for C8 at a concrete fresh address. -/
theorem getAccountRecord_caching_witness :
    (getAccountRecord sessAlice [] 3).2.2 = true ∧
    getAccountRecord sessAlice (getAccountRecord sessAlice [] 3).2.1 3 =
      ((getAccountRecord sessAlice [] 3).1, (getAccountRecord sessAlice [] 3).2.1, false) := by
  have h := getAccountRecord_caching sessAlice [] 3 rfl
  exact ⟨h.2.1.1, h.2.2.1⟩

/-- C9: the balance gate reports an excess exactly when the fee payer's
consumed balance plus the fee strictly exceeds its initial balance, in
exact integer arithmetic; with balance 100 and two transactions of fee 60,
the first passes (consumed becomes 60) and the second is rejected. -/
theorem detectWillFeeExceedBalance_spec (session : SelectionSession) (m : RecordsMap)
    (tx : WrappedTransaction) (f : Int) (hf : tx.Fee = some f) :
    ((detectWillFeeExceedBalance session m tx).1 = true ↔
      (getAccountRecord session m tx.FeePayer).1.consumedBalance + f >
        (getAccountRecord session m tx.FeePayer).1.initialBalance) ∧
    ((detectWillFeeExceedBalance sessAlice [] (feeTx 1)).1 = false ∧
      consumedBalanceOf
        (accumulateConsumedBalance sessAlice (detectWillFeeExceedBalance sessAlice [] (feeTx 1)).2
          (feeTx 1)) 1 = 60 ∧
      (detectWillFeeExceedBalance sessAlice
        (accumulateConsumedBalance sessAlice (detectWillFeeExceedBalance sessAlice [] (feeTx 1)).2
          (feeTx 1)) (feeTx 2)).1 = true) := by
  refine ⟨?_, by decide⟩
  simp [detectWillFeeExceedBalance, hf]

/-- Witness for C9 at a concrete transaction with a set fee. -/
theorem detectWillFeeExceedBalance_spec_witness :
    (detectWillFeeExceedBalance sessAlice [] (feeTx 1)).1 = false :=
  (detectWillFeeExceedBalance_spec sessAlice [] (feeTx 1) 60 rfl).2.1

/-- C10 counterexample: tvTx has nil Fee, yet accumulateConsumedBalance does
change its fee payer's consumed balance, because the fee payer coincides
with the sender and the transferred value is debited to the sender. -/
theorem nilFee_changes_feePayer_consumed :
    tvTx.Fee = none ∧
    consumedBalanceOf (accumulateConsumedBalance sessAlice [] tvTx) tvTx.FeePayer ≠
      consumedBalanceOf [] tvTx.FeePayer := by decide

/-- C10 (amended): a nil Fee makes detectWillFeeExceedBalance return false
without touching the records; with a nil Fee the fee payer's consumed
balance is unchanged by accumulateConsumedBalance provided the fee payer is
not also the sender being debited a transferred value; symmetrically, with a
nil TransferredValue the sender's consumed balance is unchanged provided the
sender is not also the fee payer being charged a fee. -/
theorem nilFields_skip_consumption (session : SelectionSession) (m : RecordsMap)
    (tx : WrappedTransaction) :
    (tx.Fee = none → (detectWillFeeExceedBalance session m tx).1 = false ∧
      (detectWillFeeExceedBalance session m tx).2 = m) ∧
    (tx.Fee = none → (tx.FeePayer ≠ getSender tx ∨ tx.TransferredValue = none) →
      consumedBalanceOf (accumulateConsumedBalance session m tx) tx.FeePayer =
        consumedBalanceOf m tx.FeePayer) ∧
    (tx.TransferredValue = none → (getSender tx ≠ tx.FeePayer ∨ tx.Fee = none) →
      consumedBalanceOf (accumulateConsumedBalance session m tx) (getSender tx) =
        consumedBalanceOf m (getSender tx)) := by
  refine ⟨?_, ?_, ?_⟩
  · intro hf
    constructor <;> simp [detectWillFeeExceedBalance, hf]
  · intro hf hside
    unfold accumulateConsumedBalance
    rw [hf]
    cases htv : tx.TransferredValue with
    | none =>
      simp only
      rw [consumedBalanceOf_getAccountRecord, consumedBalanceOf_getAccountRecord]
    | some v =>
      cases hside with
      | inl hne =>
        simp only
        rw [consumedBalanceOf_addToConsumed_other _ _ _ _ hne,
          consumedBalanceOf_getAccountRecord, consumedBalanceOf_getAccountRecord]
      | inr habs => exact absurd htv (by rw [habs]; exact Option.noConfusion)
  · intro htv hside
    unfold accumulateConsumedBalance
    rw [htv]
    cases hf : tx.Fee with
    | none =>
      simp only
      rw [consumedBalanceOf_getAccountRecord, consumedBalanceOf_getAccountRecord]
    | some f =>
      cases hside with
      | inl hne =>
        simp only
        rw [consumedBalanceOf_addToConsumed_other _ _ _ _ hne,
          consumedBalanceOf_getAccountRecord, consumedBalanceOf_getAccountRecord]
      | inr habs => exact absurd hf (by rw [habs]; exact Option.noConfusion)

/-- Witness for C10 at a concrete transaction whose fee payer differs from
its sender. -/
theorem nilFields_skip_consumption_witness :
    consumedBalanceOf
      (accumulateConsumedBalance sessAlice []
        { Tx := some ⟨0, 7, 100⟩, TxHash := 1, Size := 1, PricePerGasUnit := 100,
          Fee := none, TransferredValue := some 5, FeePayer := 9 }) 9 =
      consumedBalanceOf [] 9 :=
  (nilFields_skip_consumption sessAlice []
    { Tx := some ⟨0, 7, 100⟩, TxHash := 1, Size := 1, PricePerGasUnit := 100,
      Fee := none, TransferredValue := some 5, FeePayer := 9 }).2.1 rfl
    (Or.inl (by decide))

/-- C1: when the given hash is absent from the by-hash map, RemoveTxByHash
returns false and leaves the cache unchanged; when a transaction tx bearing
that hash is present in a well-formed cache, RemoveTxByHash returns true
and removes from both maps every transaction of tx's sender with nonce at
most tx's nonce (tx itself included), preserving every other transaction of
the by-hash map. -/
theorem removeTxByHash_spec (st : CacheState) (h : Nat) :
    (h ∉ hashesOf st.byHash → removeTxByHash st h = (false, st)) ∧
    (∀ tx, CacheWF st → tx ∈ st.byHash → tx.TxHash = h →
      (removeTxByHash st h).1 = true ∧
      h ∉ hashesOf (removeTxByHash st h).2.byHash ∧
      (∀ t ∈ (removeTxByHash st h).2.byHash,
        ¬(getSender t = getSender tx ∧ getNonce t ≤ getNonce tx)) ∧
      (∀ p ∈ (removeTxByHash st h).2.bySender, ∀ t ∈ p.2,
        ¬(getSender t = getSender tx ∧ getNonce t ≤ getNonce tx)) ∧
      (∀ t ∈ st.byHash, ¬(getSender t = getSender tx ∧ getNonce t ≤ getNonce tx) →
        t ∈ (removeTxByHash st h).2.byHash)) := by
  constructor
  · intro habs
    have hfind : st.byHash.find? (fun t => t.TxHash == h) = none := by
      apply List.find?_eq_none.mpr
      intro t ht
      simp only [beq_eq_false_iff_ne, ne_eq, Bool.not_eq_true]
      intro he
      exact habs (he ▸ List.mem_map_of_mem (fun t => t.TxHash) ht)
    simp [removeTxByHash, hashMapRemoveTx, hfind]
  · intro tx hwf hmem hhash
    obtain ⟨hndHash, hndKeys, hkeysMatch, hfwd, hbwd⟩ := hwf
    have hfind : st.byHash.find? (fun t => t.TxHash == h) = some tx := by
      rw [← hhash]
      exact find?_hash_eq st.byHash tx hndHash hmem
    have hrm : hashMapRemoveTx st.byHash h =
        (some tx, st.byHash.filter (fun t => t.TxHash != h)) := by
      unfold hashMapRemoveTx
      rw [hfind]
    obtain ⟨p, hpmem, htxp⟩ := hfwd tx hmem
    have hps : p.1 = getSender tx := (hkeysMatch p hpmem tx htxp).symm
    have hlook : senderMapLookup st.bySender (getSender tx) = some p.2 := by
      rw [← hps]
      exact senderMapLookup_of_mem st.bySender p hndKeys hpmem
    have hrem : removeTransactionsWithLowerOrEqualNonceReturnHashes st.bySender tx =
        ((p.2.filter (fun t => decide (getNonce t ≤ getNonce tx))).map (fun t => t.TxHash),
          senderMapSet st.bySender (getSender tx)
            (p.2.filter (fun t => !(decide (getNonce t ≤ getNonce tx))))) := by
      simp only [removeTransactionsWithLowerOrEqualNonceReturnHashes, hlook]
    have hbadHash : ∀ t ∈ st.byHash, getSender t = getSender tx → getNonce t ≤ getNonce tx →
        t.TxHash ∈ (p.2.filter (fun t => decide (getNonce t ≤ getNonce tx))).map
          (fun t => t.TxHash) := by
      intro t ht hts htn
      obtain ⟨q, hqmem, htq⟩ := hfwd t ht
      have hqs : q.1 = getSender tx := by
        rw [← hkeysMatch q hqmem t htq]
        exact hts
      have hqp : q = p :=
        entries_eq_of_nodupKeys st.bySender hndKeys q p hqmem hpmem (by rw [hqs, hps])
      rw [hqp] at htq
      exact List.mem_map_of_mem _ (List.mem_filter.mpr ⟨htq, by simpa using htn⟩)
    have htxEvict : tx.TxHash ∈ (p.2.filter
        (fun t => decide (getNonce t ≤ getNonce tx))).map (fun t => t.TxHash) :=
      hbadHash tx hmem rfl (le_refl _)
    have hempF : ((p.2.filter (fun t => decide (getNonce t ≤ getNonce tx))).map
        (fun t => t.TxHash)).isEmpty = false := by
      cases hevc : (p.2.filter (fun t => decide (getNonce t ≤ getNonce tx))).map
          (fun t => t.TxHash) with
      | nil => rw [hevc] at htxEvict; cases htxEvict
      | cons a as => rfl
    have hres : removeTxByHash st h =
        (true,
          ⟨hashMapRemoveTxsBulk (st.byHash.filter (fun t => t.TxHash != h))
              ((p.2.filter (fun t => decide (getNonce t ≤ getNonce tx))).map
                (fun t => t.TxHash)),
            senderMapSet st.bySender (getSender tx)
              (p.2.filter (fun t => !(decide (getNonce t ≤ getNonce tx))))⟩) := by
      simp only [removeTxByHash, hrm, hrem, hempF]
      rfl
    rw [hres]
    refine ⟨rfl, ?_, ?_, ?_, ?_⟩
    · intro hmem'
      rcases List.mem_map.mp hmem' with ⟨t, ht, hth⟩
      have := (mem_hashMapRemoveTxsBulk _ _ t).mp ht
      have h2 := (List.mem_filter.mp this.1).2
      rw [hth] at h2
      simp at h2
    · rintro t ht ⟨hts, htn⟩
      have hmem2 := (mem_hashMapRemoveTxsBulk _ _ t).mp ht
      have ht0 : t ∈ st.byHash := (List.mem_filter.mp hmem2.1).1
      exact hmem2.2 (hbadHash t ht0 hts htn)
    · rintro q hq t ht ⟨hts, htn⟩
      rcases mem_senderMapSet _ _ _ q hq with hq' | ⟨hq', hqne⟩
      · rw [hq'] at ht
        have := (List.mem_filter.mp ht).2
        simp only [Bool.not_eq_eq_eq_not, Bool.not_true, decide_eq_false_iff_not] at this
        exact this htn
      · have := hkeysMatch q hq' t ht
        rw [hts] at this
        exact hqne this.symm
    · intro t ht hgood
      have hth : t.TxHash ≠ h := by
        intro he
        apply hgood
        have : t = tx := hash_inj st.byHash hndHash t tx ht hmem (by rw [he, hhash])
        rw [this]
        exact ⟨rfl, le_refl _⟩
      have hnotEv : t.TxHash ∉ (p.2.filter
          (fun t => decide (getNonce t ≤ getNonce tx))).map (fun t => t.TxHash) := by
        intro hmem'
        rcases List.mem_map.mp hmem' with ⟨u, hu, huh⟩
        have hu2 := List.mem_filter.mp hu
        have huB : u ∈ st.byHash := hbwd p hpmem u hu2.1
        have hut : u = t := hash_inj st.byHash hndHash u t huB ht huh
        apply hgood
        constructor
        · rw [← hut, hkeysMatch p hpmem u hu2.1, hps]
        · rw [← hut]
          simpa using hu2.2
      exact (mem_hashMapRemoveTxsBulk _ _ t).mpr
        ⟨List.mem_filter.mpr ⟨ht, by simpa using hth⟩, hnotEv⟩

/-- Witness for C1 at the concrete cascade scenario: removing the hash of
sender 1's nonce-2 transaction removes nonces 1 and 2 and keeps nonce 3. -/
theorem removeTxByHash_spec_witness :
    (removeTxByHash c1St 2).1 = true ∧
    (2 : Nat) ∉ hashesOf (removeTxByHash c1St 2).2.byHash ∧
    (∀ t ∈ (removeTxByHash c1St 2).2.byHash,
      ¬(getSender t = getSender (mkTx 1 2 2 100) ∧
        getNonce t ≤ getNonce (mkTx 1 2 2 100))) := by
  have h := (removeTxByHash_spec c1St 2).2 (mkTx 1 2 2 100) (by decide) (by decide) (by decide)
  exact ⟨h.1, h.2.1, h.2.2.1⟩

/-- C3 (amended): in every eviction pass, each pass collects at most
NumItemsToPreemptivelyEvict transactions by repeatedly popping the
min-heap, and for every collected pop the advanced cursor is pushed back;
the reused heap never gains spurious cursors, keeps at most one live cursor
per sender, but at most one sender per pass — the one popped right after
the batch is already full, whose cursor is discarded — may lose its live
cursor while still owning un-evicted transactions. -/
theorem collectPass_cursors (cfg : ConfigSourceMe) (fuel : Nat)
    (heapL : List TransactionsHeapItem)
    (hhomog : heapHomog heapL) (hnodup : (heapSenders heapL).Nodup) :
    (collectPass cfg fuel heapL []).1.length ≤ cfg.NumItemsToPreemptivelyEvict ∧
    (heapSenders (collectPass cfg fuel heapL []).2).Nodup ∧
    (∀ s ∈ heapSenders (collectPass cfg fuel heapL []).2, s ∈ heapSenders heapL) ∧
    (∃ dropped : Option Nat,
      ∀ tx ∈ heapTxs heapL, tx ∉ (collectPass cfg fuel heapL []).1 →
        getSender tx ∈ heapSenders (collectPass cfg fuel heapL []).2 ∨
          some (getSender tx) = dropped) := by
  obtain ⟨r1, r2, r3⟩ := collectPass_heap_invariants cfg fuel heapL [] hhomog hnodup
  exact ⟨collectPass_length cfg fuel heapL [] (Nat.zero_le _), r2, r3,
    collectPass_dropped cfg fuel heapL [] hhomog⟩

/-- Witness for C3 (amended) at the concrete two-sender heap. -/
theorem collectPass_cursors_witness :
    (collectPass cfgEvict1 ((heapTxs ceHeap).length + 1) ceHeap []).1.length ≤
      cfgEvict1.NumItemsToPreemptivelyEvict ∧
    (heapSenders (collectPass cfgEvict1 ((heapTxs ceHeap).length + 1) ceHeap []).2).Nodup ∧
    (∀ s ∈ heapSenders (collectPass cfgEvict1 ((heapTxs ceHeap).length + 1) ceHeap []).2,
      s ∈ heapSenders ceHeap) :=
  have h := collectPass_cursors cfgEvict1 ((heapTxs ceHeap).length + 1) ceHeap
    (by decide) (by decide)
  ⟨h.1, h.2.1, h.2.2.1⟩

/-- C4: for every eviction pass over per-sender bunches (strictly
descending in nonce, homogeneous per sender, one cursor per sender) and
every sender with at least one collected transaction, the pass's
lowestToEvictBySender map records exactly the minimum nonce among that
sender's collected transactions, and applying the pass's removals leaves in
that sender's list exactly its transactions with nonce strictly below that
minimum — every transaction with nonce greater than or equal to it is
removed in one operation. -/
theorem eviction_lowest_nonce_spec (cfg : ConfigSourceMe) (fuel : Nat)
    (heapL : List TransactionsHeapItem) (m : SenderMap)
    (hdesc : heapDesc heapL) (hhomog : heapHomog heapL)
    (hnodup : (heapSenders heapL).Nodup) :
    (∀ tx ∈ (collectPass cfg fuel heapL []).1,
      ∃ n, lookupLowest (lowestToEvictBySender (collectPass cfg fuel heapL []).1)
        (getSender tx) = some n) ∧
    (∀ s n,
      lookupLowest (lowestToEvictBySender (collectPass cfg fuel heapL []).1) s = some n →
      (∃ tx ∈ (collectPass cfg fuel heapL []).1, getSender tx = s ∧ getNonce tx = n) ∧
      (∀ tx ∈ (collectPass cfg fuel heapL []).1, getSender tx = s → n ≤ getNonce tx) ∧
      (∀ t, t ∈ senderTxsOf (applyEvictionRemovals m
          (lowestToEvictBySender (collectPass cfg fuel heapL []).1)) s ↔
        (t ∈ senderTxsOf m s ∧ getNonce t < n))) := by
  have hdescC : sameSenderDesc (collectPass cfg fuel heapL []).1 :=
    collectPass_sameSenderDesc cfg fuel heapL [] hdesc hhomog hnodup
      (List.Pairwise.nil) (by intro a ha; cases ha)
  obtain ⟨h1, h2⟩ := lowestToEvictBySender_spec (collectPass cfg fuel heapL []).1 hdescC
  refine ⟨h1, ?_⟩
  intro s n hlook
  obtain ⟨hex, hmin⟩ := h2 s n hlook
  refine ⟨hex, hmin, ?_⟩
  exact applyEvictionRemovals_lookup (lowestToEvictBySender (collectPass cfg fuel heapL []).1)
    m s n (lowestToEvictBySender_keys_nodup _) hlook

/-- Witness for C4 on the one-sender heap with nonces 3 then 2: the
recorded nonce is the minimum 2 and the removal empties the sender's
list. -/
theorem eviction_lowest_nonce_spec_witness :
    (∃ tx ∈ (collectPass c4cfg 3 c4heap []).1, getSender tx = 1 ∧ getNonce tx = 2) ∧
    (∀ tx ∈ (collectPass c4cfg 3 c4heap []).1, getSender tx = 1 → 2 ≤ getNonce tx) ∧
    (∀ t, t ∈ senderTxsOf (applyEvictionRemovals c4m
        (lowestToEvictBySender (collectPass c4cfg 3 c4heap []).1)) 1 ↔
      (t ∈ senderTxsOf c4m 1 ∧ getNonce t < 2)) :=
  (eviction_lowest_nonce_spec c4cfg 3 c4heap c4m (by decide) (by decide) (by decide)).2
    1 2 (by decide)

/-- C7 counterexample: with the per-sender count cap at one and eviction
disabled, AddTx on owTx2 leaves owSt unchanged because the transaction is
immediately evicted again by per-sender overflow; repeating the same AddTx
therefore reports added = true again, not the claimed false, even though
the state is unchanged. -/
theorem addTx_idempotent_counterexample :
    cfgOverflow.EvictionEnabled = false ∧
    (addTx cfgOverflow (addTx cfgOverflow owSt (some owTx2)).2 (some owTx2)).1.2 = true ∧
    (addTx cfgOverflow (addTx cfgOverflow owSt (some owTx2)).2 (some owTx2)).2 =
      (addTx cfgOverflow owSt (some owTx2)).2 := by decide

/-- C7 (amended): with eviction disabled, in a well-formed cache whose
per-sender lists meet their constraints and whose transactions carry
distinct hashes, adding the same valid transaction twice leaves the cache
exactly as after the first AddTx, and the second AddTx reports
added = false — provided the first AddTx actually retained the transaction
(it was not immediately evicted again by per-sender overflow). -/
theorem addTx_idempotent (cfg : ConfigSourceMe) (st : CacheState) (w : WrappedTransaction)
    (d : TxData) (hTx : w.Tx = some d)
    (hwf : CacheWF st)
    (hev : cfg.EvictionEnabled = false)
    (hfaith : ∀ t, t ∈ st.byHash → t.TxHash = w.TxHash → t = w)
    (hretained : w.TxHash ∈ hashesOf (addTx cfg st (some w)).2.byHash) :
    addTx cfg (addTx cfg st (some w)).2 (some w) =
      ((true, false), (addTx cfg st (some w)).2) := by
  obtain ⟨hndHash, hndKeys, hkeysMatch, hfwd, hbwd⟩ := hwf
  have hsub : ∀ t ∈ (senderMapLookup st.bySender (getSender w)).getD [], t ∈ st.byHash := by
    intro t ht
    cases hlk : senderMapLookup st.bySender (getSender w) with
    | none => rw [hlk] at ht; cases ht
    | some l0 =>
      rw [hlk] at ht
      rcases Option.map_eq_some'.mp hlk with ⟨p, hpfind, hpsnd⟩
      exact hbwd p (List.mem_of_find?_eq_some hpfind) t (hpsnd ▸ ht)
  have hwl1 : w ∈ (tryAddToList w ((senderMapLookup st.bySender (getSender w)).getD [])).2 := by
    unfold tryAddToList
    by_cases hdup : (((senderMapLookup st.bySender (getSender w)).getD []).any
        (fun t => getNonce t == getNonce w && t.TxHash == w.TxHash)) = true
    · rw [if_pos hdup]
      rcases List.any_eq_true.mp hdup with ⟨t, htl, hcond⟩
      rcases Bool.and_eq_true_iff.mp hcond with ⟨_, hhash⟩
      have : t = w := hfaith t (hsub t htl) (by simpa using hhash)
      exact this ▸ htl
    · rw [if_neg hdup]
      exact (mem_insertSorted w w _).mpr (Or.inl rfl)
  have hwithin2 : withinSenderConstraints cfg
      (applySenderConstraints cfg (tryAddToList w
        ((senderMapLookup st.bySender (getSender w)).getD [])).2).1 = true := by
    unfold applySenderConstraints
    exact applySizeConstraints_within cfg _ _ (le_refl _)
  have hbyhash1 : (addTx cfg st (some w)).2.byHash =
      (if (addTxReturnEvicted cfg st.bySender w).2.1.isEmpty
          then (hashMapAddTx st.byHash w).2
          else hashMapRemoveTxsBulk (hashMapAddTx st.byHash w).2
            (addTxReturnEvicted cfg st.bySender w).2.1) := by
    rw [addTx_unfold cfg st w d hTx hev]
  have hbysender1 : (addTx cfg st (some w)).2.bySender =
      senderMapSet st.bySender (getSender w)
        (applySenderConstraints cfg (tryAddToList w
          ((senderMapLookup st.bySender (getSender w)).getD [])).2).1 := by
    rw [addTx_unfold cfg st w d hTx hev, addTxReturnEvicted_unfold cfg st.bySender w]
  have hwl2 : w ∈ (applySenderConstraints cfg (tryAddToList w
      ((senderMapLookup st.bySender (getSender w)).getD [])).2).1 := by
    by_contra hout
    have hhashEv : w.TxHash ∈ (applySenderConstraints cfg (tryAddToList w
        ((senderMapLookup st.bySender (getSender w)).getD [])).2).2 := by
      unfold applySenderConstraints at hout ⊢
      exact mem_applySizeConstraints_evict cfg _ _ w hwl1 hout
    have hevNe : ((addTxReturnEvicted cfg st.bySender w).2.1).isEmpty = false := by
      rw [addTxReturnEvicted_unfold cfg st.bySender w]
      cases hc : (applySenderConstraints cfg (tryAddToList w
          ((senderMapLookup st.bySender (getSender w)).getD [])).2).2 with
      | nil => rw [hc] at hhashEv; cases hhashEv
      | cons a as => rfl
    rw [hbyhash1, hevNe] at hretained
    simp only [Bool.false_eq_true, if_false] at hretained
    rcases List.mem_map.mp hretained with ⟨t, htmem, hth⟩
    have := ((mem_hashMapRemoveTxsBulk _ _ t).mp htmem).2
    rw [hth] at this
    rw [addTxReturnEvicted_unfold cfg st.bySender w] at this
    exact this hhashEv
  have hl2ne : (applySenderConstraints cfg (tryAddToList w
      ((senderMapLookup st.bySender (getSender w)).getD [])).2).1 ≠ [] := by
    intro he
    rw [he] at hwl2
    cases hwl2
  have hlook1 : senderMapLookup (addTx cfg st (some w)).2.bySender (getSender w) =
      some (applySenderConstraints cfg (tryAddToList w
        ((senderMapLookup st.bySender (getSender w)).getD [])).2).1 := by
    rw [hbysender1, senderMapLookup_set_self]
    rw [if_neg]
    intro he
    exact hl2ne (List.isEmpty_iff.mp he)
  have hnd2 : ((addTx cfg st (some w)).2.bySender.map Prod.fst).Nodup := by
    rw [hbysender1]
    exact senderMapSet_keys_nodup _ _ _ hndKeys
  have hany2 : ((addTx cfg st (some w)).2.byHash.any
      (fun t => t.TxHash == w.TxHash)) = true :=
    any_hash_mem _ _ hretained
  have hhm2 : hashMapAddTx (addTx cfg st (some w)).2.byHash w =
      (false, (addTx cfg st (some w)).2.byHash) := by
    unfold hashMapAddTx
    rw [if_pos hany2]
  have htry2 : ∀ L, w ∈ L → tryAddToList w L = (false, L) := by
    intro L hwL
    unfold tryAddToList
    rw [if_pos (List.any_eq_true.mpr ⟨w, hwL, by simp⟩)]
  have hshr2 : ∀ L, withinSenderConstraints cfg L = true →
      applySenderConstraints cfg L = (L, []) := by
    intro L hw
    unfold applySenderConstraints
    exact applySizeConstraints_of_within cfg _ _ hw
  have hset2 : senderMapSet (addTx cfg st (some w)).2.bySender (getSender w)
      (applySenderConstraints cfg (tryAddToList w
        ((senderMapLookup st.bySender (getSender w)).getD [])).2).1 =
      (addTx cfg st (some w)).2.bySender :=
    senderMapSet_lookup_id _ _ _ hnd2 hlook1 hl2ne
  have hadd2 : addTxReturnEvicted cfg (addTx cfg st (some w)).2.bySender w =
      (false, [], (addTx cfg st (some w)).2.bySender) := by
    rw [addTxReturnEvicted_unfold cfg (addTx cfg st (some w)).2.bySender w, hlook1]
    simp only [Option.getD_some, htry2 _ hwl2, hshr2 _ hwithin2, hset2]
  rw [addTx_unfold cfg (addTx cfg st (some w)).2 w d hTx hev, hadd2, hhm2]
  simp

/-- Witness for C7: a single-sender cache where the transaction is retained
by the first AddTx; the second AddTx returns added = false and leaves the
state untouched. -/
theorem addTx_idempotent_witness :
    addTx cfgOverflow (addTx cfgOverflow emptyCache (some owTx1)).2 (some owTx1) =
      ((true, false), (addTx cfgOverflow emptyCache (some owTx1)).2) :=
  addTx_idempotent cfgOverflow emptyCache owTx1 ⟨1, 1, 100⟩ rfl
    (by decide) rfl (by decide) (by decide)

/-- C3 counterexample: with a batch size of one, the pass on ceHeap collects
sender 1's worst transaction, then pops sender 1's advanced cursor a second
time and discards it on the quota check; sender 1 still has an un-evicted
transaction but no live cursor remains for it in the reused heap. -/
theorem collectPass_drops_cursor :
    ¬ passKeepsCursors cfgEvict1 ceHeap := by
  unfold passKeepsCursors
  decide

end TxCacheModel
